import Mathlib

/-!
Verification of the QGIS timezone table generation script
(`src/localedata/qgis/TimezoneTableTasks.py`).

The script consists of three batch tasks:
* `TimezoneStringTableTask` — collects the distinct `tzid` attributes of the
  timezone layer, sorts them, and emits a null-separated string blob together
  with an enumeration mapping each symbolic name to its byte offset;
* `RegionToTimezoneMapTask` — computes country→timezone and
  subdivision→timezone tables from geometric overlap with a dual threshold;
* `TimezoneToCountryMapTask` — computes the inverse timezone→country table
  with a two-way disambiguation rule.

The embedding below models layers as lists of features (attribute + abstract
geometry), the GIS geometry engine as a structure of area/intersection
functions valued in ℚ, and the Python `dict`s as insertion-ordered
association lists.  Python `set`s are modelled as duplicate-free lists of
their elements (membership, size, add and remove are order-insensitive, so
any enumeration works; first-insertion order is used); the places where the
script linearizes a set (`list(s)`) are parametrized by an explicit choice
function so that independence from set iteration order can be stated.
-/

/-- Abstract interface of the host GIS geometry engine: `area()`,
`intersects()` and `intersection().area()` on geometries of type `Geo`.
The first argument of `intersects`/`interArea` is the receiver object of the
corresponding Python method call. -/
structure GeoEngine (Geo : Type) where
  area : Geo → ℚ
  intersects : Geo → Geo → Bool
  interArea : Geo → Geo → ℚ

/-- A feature of the timezone layer: a `tzid` attribute plus a geometry. -/
structure TzFeature (Geo : Type) where
  tzid : String
  geom : Geo
deriving DecidableEq

/-- A feature of the country layer (attribute `ISO3166-1`) or of the
subdivision layer (attribute `ISO3166-2`): a code plus a geometry. -/
structure RegionFeature (Geo : Type) where
  code : String
  geom : Geo
deriving DecidableEq

/-- The static configuration tables imported from `config` by the script:
`TZID_MAP`, `ISO3166_1_MAP` and `ISO3166_1_DISAMBIGUATION_MAP`.  The two
normalization maps are Python dicts (modelled as association lists with the
dict's key-uniqueness irrelevant to lookup semantics), the disambiguation map
is an ordered list of (preferred, secondary) pairs. -/
structure Config where
  TZID_MAP : List (String × String)
  ISO3166_1_MAP : List (String × String)
  ISO3166_1_DISAMBIGUATION_MAP : List (String × String)

/-- `tzIdToEnum`: `tzId.replace('/', '_').replace('-', '_')`.  Both patterns
are single characters, so the two successive replacements act character by
character: first `/` becomes `_`, then `-` becomes `_`. -/
def tzIdToEnum (tzId : String) : String :=
  ⟨tzId.data.map (fun c => if c = '/' then '_' else if c = '-' then '_' else c)⟩

/-- `normalizedTz`: look `tzId` up in `TZID_MAP`, defaulting to `tzId`. -/
def normalizedTz (cfg : Config) (tzId : String) : String :=
  match cfg.TZID_MAP.lookup tzId with
  | some v => v
  | none => tzId

/-- `normalizedCountry`: look `code` up in `ISO3166_1_MAP`, defaulting to
`code`. -/
def normalizedCountry (cfg : Config) (code : String) : String :=
  match cfg.ISO3166_1_MAP.lookup code with
  | some v => v
  | none => code

/-! ## Task 1: `TimezoneStringTableTask.run` -/

/-- The raw `tzid` attributes of the timezone layer, in feature iteration
order (`for tz in tzLayer.getFeatures(): tzIds.add(tz['tzid'])` collects
exactly these values into a set). -/
def collectTzIds {Geo : Type} (tzLayer : List (TzFeature Geo)) : List String :=
  tzLayer.map (·.tzid)

/-- `tzIds = list(tzIds); tzIds.sort()`: the distinct raw identifiers in
lexicographic order.  Python's `sort` is a stable sort; on the duplicate-free
`list(set)` any stable sort produces the unique sorted permutation, modelled
here by `insertionSort`. -/
def sortedTzIds {Geo : Type} (tzLayer : List (TzFeature Geo)) : List String :=
  ((collectTzIds tzLayer).dedup).insertionSort (· ≤ ·)

/-- The offset recurrence of the writer loop: starting from the running last
offset `base` (`offsets[-1]`), each identifier appends
`offsets[-1] + len(tzId) + 1`. -/
def offsetsFrom (base : ℕ) : List String → List ℕ
  | [] => []
  | s :: rest => (base + s.length + 1) :: offsetsFrom (base + s.length + 1) rest

/-- The full `offsets` list built by the loop, starting from `offsets = [0]`. -/
def buildOffsets (ids : List String) : List ℕ :=
  0 :: offsetsFrom 0 ids

/-- The byte content of the generated string table: each identifier followed
by a null terminator (`out.write(f"    \"{tzId}\\0\"\n")` contributes the
bytes of `tzId` followed by `\0` to the character-array literal). -/
def blob : List String → List Char
  | [] => []
  | s :: rest => s.data ++ '\x00' :: blob rest

/-- The enumeration entries written by
`for i in range(len(tzIds)): out.write(f"    {tzIdToEnum(tzIds[i])} = {offsets[i]},\n")`:
the symbolic name paired with its offset, in index order. -/
def enumEntries (ids : List String) : List (String × ℕ) :=
  (ids.map tzIdToEnum).zip (buildOffsets ids)

/-- The `Undefined` sentinel offset: `offsets[-1] - 1` (over ℤ, since Python
would print `-1` on an empty layer). -/
def undefinedOffset (ids : List String) : ℤ :=
  ((buildOffsets ids).getLastD 0 : ℤ) - 1

/-- Sum of `len + 1` over the first `i` identifiers. -/
def offsetSum (ids : List String) (i : ℕ) : ℕ :=
  ((ids.take i).map (fun s => s.length + 1)).sum

/-! ## Python dict semantics: insertion-ordered association lists -/

/-- Dict lookup `m[k]` (as an `Option`: `none` models a `KeyError`). -/
def alookup {β : Type} : List (String × β) → String → Option β
  | [], _ => none
  | p :: rest, k => if p.1 = k then some p.2 else alookup rest k

/-- Dict assignment `m[k] = v`: overwrite in place when the key exists
(keeping its position, as Python dicts do), else append at the end. -/
def aupdate {β : Type} : List (String × β) → String → β → List (String × β)
  | [], k, v => [(k, v)]
  | p :: rest, k, v => if p.1 = k then (k, v) :: rest else p :: aupdate rest k v

/-- The key list of a dict, in insertion order (`list(m)`). -/
def akeys {β : Type} (m : List (String × β)) : List String :=
  m.map (·.1)

/-- A line of a generated table body: either a data row (key, value) or a
comment-only placeholder. -/
inductive OutLine where
  | row (k v : String)
  | comment (c : String)
deriving DecidableEq, Repr

/-- The key a line is about (the row key, or the commented name). -/
def OutLine.key : OutLine → String
  | .row k _ => k
  | .comment c => c

/-- Set insertion `s.add(x)`: append the element unless already present. -/
def linsert (l : List String) (x : String) : List String :=
  if x ∈ l then l else l ++ [x]

/-- The element Python's `list(s)[0]` would return for a set `s`; the scripts
only evaluate it on singleton sets, where every choice function satisfying
`l ≠ [] → pick l ∈ l` agrees, so the canonical choice below is used as the
default and table-building is parametrized over the choice. -/
def pickD (s : List String) : String :=
  s.headD ""

/-! ## Task 2: `RegionToTimezoneMapTask.run` -/

/-- The dual-threshold intersection filter of `RegionToTimezoneMapTask.run`
(the receiver of `intersects`/`intersection` is the timezone geometry):
accept when the geometries intersect and the intersection area exceeds 1% of
the timezone's area or 10% of the region's area. -/
def tzRegionMatch {Geo : Type} (E : GeoEngine Geo) (tzGeom regionGeom : Geo) : Bool :=
  E.intersects tzGeom regionGeom &&
    (decide (E.interArea tzGeom regionGeom / E.area tzGeom > 1 / 100) ||
     decide (E.interArea tzGeom regionGeom / E.area regionGeom > 1 / 10))

/-- One region's inner loop: add to the set `acc` the normalized id of every
timezone feature passing the dual-threshold filter against the region
geometry (`countryToTz[countryCode].add(tzId)`). -/
def addTzMatches {Geo : Type} (E : GeoEngine Geo) (cfg : Config)
    (tzLayer : List (TzFeature Geo)) (regionGeom : Geo) (acc : List String) :
    List String :=
  tzLayer.foldl (fun acc tz =>
    if tzRegionMatch E tz.geom regionGeom then linsert acc (normalizedTz cfg tz.tzid)
    else acc) acc

/-- The set of normalized ids of the timezone features matching a region
geometry. -/
def tzMatchSet {Geo : Type} (E : GeoEngine Geo) (cfg : Config)
    (tzLayer : List (TzFeature Geo)) (regionGeom : Geo) : List String :=
  addTzMatches E cfg tzLayer regionGeom []

/-- The `countryToTz` dict after the first loop: each country feature ensures
an entry for its code exists (`countryToTz[countryCode] = set()` when absent)
and adds all its matching timezone ids to it. -/
def buildCountryToTz {Geo : Type} (E : GeoEngine Geo) (cfg : Config)
    (countryLayer : List (RegionFeature Geo)) (tzLayer : List (TzFeature Geo)) :
    List (String × List String) :=
  countryLayer.foldl (fun m c =>
    aupdate m c.code (addTzMatches E cfg tzLayer c.geom ((alookup m c.code).getD []))) []

/-- The `country_timezone_map.cpp` body: the dict keys sorted, one data row
per country whose match set is a singleton (`len(countryToTz[country]) == 1`),
mapping the country code to the timezone's enum symbol. -/
def countryLines {Geo : Type} (E : GeoEngine Geo) (cfg : Config)
    (countryLayer : List (RegionFeature Geo)) (tzLayer : List (TzFeature Geo))
    (pick : List String → String) : List OutLine :=
  ((akeys (buildCountryToTz E cfg countryLayer tzLayer)).insertionSort (· ≤ ·)).filterMap
    (fun c =>
      let s := (alookup (buildCountryToTz E cfg countryLayer tzLayer) c).getD []
      if s.length = 1 then some (OutLine.row c (tzIdToEnum (pick s))) else none)

/-- One subdivision's inner loop over the timezone layer: accumulate the
intersection area per normalized timezone id into the per-subdivision dict
(`subdivToTz[code][tzId] += area`, starting at `area` on first match). -/
def subdivTzAreas {Geo : Type} (E : GeoEngine Geo) (cfg : Config)
    (tzLayer : List (TzFeature Geo)) (sGeom : Geo) (e : List (String × ℚ)) :
    List (String × ℚ) :=
  tzLayer.foldl (fun e tz =>
    if tzRegionMatch E tz.geom sGeom then
      aupdate e (normalizedTz cfg tz.tzid)
        ((alookup e (normalizedTz cfg tz.tzid)).getD 0 + E.interArea tz.geom sGeom)
    else e) e

/-- The subdivision loop of `RegionToTimezoneMapTask.run`.  The lookup
`countryToTz[country]` has no membership guard, so a subdivision whose
two-letter prefix is not a key raises a `KeyError`, modelled as `none`.
Subdivisions of countries with at most one timezone are skipped
(`continue`); otherwise the per-code dict is created if absent and the inner
accumulation runs. -/
def buildSubdivToTzGo {Geo : Type} (E : GeoEngine Geo) (cfg : Config)
    (countryToTz : List (String × List String)) (tzLayer : List (TzFeature Geo)) :
    List (RegionFeature Geo) → List (String × List (String × ℚ)) →
      Option (List (String × List (String × ℚ)))
  | [], m => some m
  | sd :: rest, m =>
    match alookup countryToTz (sd.code.take 2) with
    | none => none
    | some ctz =>
      if ctz.length ≤ 1 then buildSubdivToTzGo E cfg countryToTz tzLayer rest m
      else buildSubdivToTzGo E cfg countryToTz tzLayer rest
        (aupdate m sd.code
          (subdivTzAreas E cfg tzLayer sd.geom ((alookup m sd.code).getD [])))

/-- The `subdivToTz` dict after the full subdivision loop (starting empty),
or `none` when the loop aborts with a `KeyError`. -/
def buildSubdivToTz {Geo : Type} (E : GeoEngine Geo) (cfg : Config)
    (countryToTz : List (String × List String))
    (subdivLayer : List (RegionFeature Geo)) (tzLayer : List (TzFeature Geo)) :
    Option (List (String × List (String × ℚ))) :=
  buildSubdivToTzGo E cfg countryToTz tzLayer subdivLayer []

/-- `tzs.sort(key = ..., reverse = True)`: the stable descending sort of a
subdivision's (timezone, area) entries by area.  Python's stable sort and
stable insertion sort produce the same output for this total preorder. -/
def sortByAreaDesc (e : List (String × ℚ)) : List (String × ℚ) :=
  e.insertionSort (fun a b => b.2 ≤ a.2)

/-- The `subdivision_timezone_map.cpp` body: subdivision codes sorted, one
row per (subdivision, timezone) pair with timezones by descending area, and a
comment-only placeholder when a subdivision's dict is empty. -/
def subdivisionLines (m : List (String × List (String × ℚ))) : List OutLine :=
  ((akeys m).insertionSort (· ≤ ·)).flatMap (fun code =>
    let e := (alookup m code).getD []
    ((sortByAreaDesc e).map (fun p => OutLine.row code (tzIdToEnum p.1))) ++
      (if e.length = 0 then [OutLine.comment code] else []))

/-- The area column of the rows emitted for one subdivision, in emission
order. -/
def rowAreas (m : List (String × List (String × ℚ))) (code : String) : List ℚ :=
  (sortByAreaDesc ((alookup m code).getD [])).map (·.2)

/-! ## Task 3: `TimezoneToCountryMapTask.run` -/

/-- The dual-threshold filter of `TimezoneToCountryMapTask.run` (the receiver
of `intersects`/`intersection` is the country geometry). -/
def countryTzMatch {Geo : Type} (E : GeoEngine Geo) (cGeom tzGeom : Geo) : Bool :=
  E.intersects cGeom tzGeom &&
    (decide (E.interArea cGeom tzGeom / E.area tzGeom > 1 / 100) ||
     decide (E.interArea cGeom tzGeom / E.area cGeom > 1 / 10))

/-- One timezone's inner loop: add to the set `acc` the normalized,
non-empty country codes whose features pass the dual-threshold filter against
the timezone geometry
(`if code and country.geometry().intersects(tzGeom): ...`). -/
def addCountryMatches {Geo : Type} (E : GeoEngine Geo) (cfg : Config)
    (countryLayer : List (RegionFeature Geo)) (tzGeom : Geo) (acc : List String) :
    List String :=
  countryLayer.foldl (fun acc c =>
    if (normalizedCountry cfg c.code != "") && countryTzMatch E c.geom tzGeom then
      linsert acc (normalizedCountry cfg c.code)
    else acc) acc

/-- The set of qualifying normalized country codes for one timezone
geometry. -/
def countryMatchSet {Geo : Type} (E : GeoEngine Geo) (cfg : Config)
    (countryLayer : List (RegionFeature Geo)) (tzGeom : Geo) : List String :=
  addCountryMatches E cfg countryLayer tzGeom []

/-- The `tzToCountry` dict after the outer loop of
`TimezoneToCountryMapTask.run`.  The guard `if not tz in tzToCountry:` tests
the feature object `tz` rather than the key `tzId`, so it is always true and
`tzToCountry[tzId] = set()` runs for every feature: the entry is reset, and a
feature's matches replace (rather than join) those of earlier features with
the same raw id. -/
def buildTzToCountry {Geo : Type} (E : GeoEngine Geo) (cfg : Config)
    (tzLayer : List (TzFeature Geo)) (countryLayer : List (RegionFeature Geo)) :
    List (String × List String) :=
  tzLayer.foldl (fun m tz =>
    aupdate m tz.tzid (countryMatchSet E cfg countryLayer tz.geom)) []

/-- The candidate set the claim describes for a raw id: the union, over all
timezone features bearing that id, of their qualifying normalized country
codes (what the loop would accumulate if its reset guard tested the key
`tzId` instead of the feature). -/
def tzCandidatesSpec {Geo : Type} (E : GeoEngine Geo) (cfg : Config)
    (tzLayer : List (TzFeature Geo)) (countryLayer : List (RegionFeature Geo))
    (tzId : String) : List String :=
  tzLayer.foldl (fun acc tz =>
    if tz.tzid = tzId then addCountryMatches E cfg countryLayer tz.geom acc
    else acc) []

/-- `TimezoneToCountryMapTask.disambiguateCountries`: leave any set whose
size is not two unchanged; otherwise scan the ordered disambiguation list and
at the first pair with both members present remove the secondary member. -/
def disambiguateCountries (cfg : Config) (countries : List String) : List String :=
  if countries.length ≠ 2 then countries
  else
    match cfg.ISO3166_1_DISAMBIGUATION_MAP.find?
        (fun p => decide (p.1 ∈ countries) && decide (p.2 ∈ countries)) with
    | some p => countries.erase p.2
    | none => countries

/-- The `timezone_country_map.cpp` body: raw ids sorted; after
disambiguation, a data row when exactly one country remains, otherwise a
comment-only placeholder naming the timezone's enum symbol. -/
def timezoneCountryLines {Geo : Type} (E : GeoEngine Geo) (cfg : Config)
    (tzLayer : List (TzFeature Geo)) (countryLayer : List (RegionFeature Geo))
    (pick : List String → String) : List OutLine :=
  ((akeys (buildTzToCountry E cfg tzLayer countryLayer)).insertionSort (· ≤ ·)).map
    (fun tzId =>
      let countries := disambiguateCountries cfg
        ((alookup (buildTzToCountry E cfg tzLayer countryLayer) tzId).getD [])
      if countries.length = 1 then OutLine.row (tzIdToEnum tzId) (pick countries)
      else OutLine.comment (tzIdToEnum tzId))

/-! ## Referential integrity and determinism helpers -/

/-- Every `Tz::` reference emitted across the three tables: the row values of
the country→timezone and subdivision→timezone tables, and the row keys and
commented names of the timezone→country table. -/
def tableTzRefs (countryT subdivT tzCountryT : List OutLine) : List String :=
  (countryT.filterMap (fun l => match l with | .row _ v => some v | .comment _ => none)) ++
    (subdivT.filterMap (fun l => match l with | .row _ v => some v | .comment _ => none)) ++
    (tzCountryT.map OutLine.key)

/-- The spec-side cumulative intersection area of a timezone id over a list
of subdivision features: for each feature, the sum of the intersection areas
of the matching timezone features carrying that normalized id. -/
def cumulativeArea {Geo : Type} (E : GeoEngine Geo) (cfg : Config)
    (tzLayer : List (TzFeature Geo)) (sds : List (RegionFeature Geo))
    (tzId : String) : ℚ :=
  (sds.map (fun sd =>
    ((tzLayer.filter (fun tz =>
        (normalizedTz cfg tz.tzid == tzId) && tzRegionMatch E tz.geom sd.geom)).map
      (fun tz => E.interArea tz.geom sd.geom)).sum)).sum

/-- Iterate the per-subdivision accumulation over a list of subdivision
features (used to characterize the dict produced by the subdivision loop). -/
def applySds {Geo : Type} (E : GeoEngine Geo) (cfg : Config)
    (tzLayer : List (TzFeature Geo)) (sds : List (RegionFeature Geo))
    (e : List (String × ℚ)) : List (String × ℚ) :=
  sds.foldl (fun e sd => subdivTzAreas E cfg tzLayer sd.geom e) e

/-- The outputs of the string table builder for a given linearization of the
id set: the blob, the enumeration and the `Undefined` offset. -/
def stringTableOutput (l : List String) : List Char × List (String × ℕ) × ℤ :=
  (blob (l.insertionSort (· ≤ ·)), enumEntries (l.insertionSort (· ≤ ·)),
    undefinedOffset (l.insertionSort (· ≤ ·)))

/-- The outputs of the region→timezone mapper: the country table body and
(unless the subdivision loop aborts) the subdivision table body. -/
def regionMapOutput {Geo : Type} (E : GeoEngine Geo) (cfg : Config)
    (countryLayer subdivLayer : List (RegionFeature Geo))
    (tzLayer : List (TzFeature Geo)) (pick : List String → String) :
    List OutLine × Option (List OutLine) :=
  (countryLines E cfg countryLayer tzLayer pick,
    (buildSubdivToTz E cfg (buildCountryToTz E cfg countryLayer tzLayer)
        subdivLayer tzLayer).map subdivisionLines)

/-! ## Concrete instances for counterexamples and witnesses -/

/-- A geometry engine on `ℕ` where every pair of geometries intersects with
intersection area 1 and every geometry has area 1. -/
def allE : GeoEngine ℕ :=
  { area := fun _ => 1, intersects := fun _ _ => true, interArea := fun _ _ => 1 }

/-- A geometry engine on `ℕ` where geometries intersect exactly when they are
the same number, in area 1. -/
def eqE : GeoEngine ℕ :=
  { area := fun _ => 1, intersects := fun a b => a == b, interArea := fun _ _ => 1 }

/-- A configuration with all three maps empty. -/
def emptyConfig : Config := ⟨[], [], []⟩

/-- A configuration whose `TZID_MAP` normalizes `"X"` to `"Y"`. -/
def cfgC2 : Config := ⟨[("X", "Y")], [], []⟩

/-- Two timezone features sharing the raw id `"T"` on distinct geometries. -/
def tzLayerC1 : List (TzFeature ℕ) := [⟨"T", 0⟩, ⟨"T", 1⟩]

/-- Two countries, one per geometry of `tzLayerC1`. -/
def countryLayerC1 : List (RegionFeature ℕ) := [⟨"AA", 0⟩, ⟨"BB", 1⟩]

/-- A single timezone feature with the raw id `"X"` (normalized to `"Y"` by
`cfgC2`). -/
def tzLayerC2 : List (TzFeature ℕ) := [⟨"X", 0⟩]

/-- A single country `"AA"`. -/
def countryLayerC2 : List (RegionFeature ℕ) := [⟨"AA", 1⟩]

/-- One country with two overlapping timezones `"P"`, `"Q"` and one
subdivision overlapping both with equal areas. -/
def countryLayerC6 : List (RegionFeature ℕ) := [⟨"AA", 0⟩]

/-- See `countryLayerC6`. -/
def tzLayerC6 : List (TzFeature ℕ) := [⟨"P", 1⟩, ⟨"Q", 2⟩]

/-- See `countryLayerC6`. -/
def subdivLayerC6 : List (RegionFeature ℕ) := [⟨"AA-X", 3⟩]

/-! ## Theorems for claims C3 and C4 -/

theorem offsetsFrom_getD (ids : List String) :
    ∀ (base i : ℕ), i ≤ ids.length →
      (base :: offsetsFrom base ids).getD i 0 = base + offsetSum ids i := by
  induction ids with
  | nil =>
    intro base i hi
    have hi0 : i = 0 := by simpa using hi
    subst hi0
    simp [offsetSum]
  | cons s rest ih =>
    intro base i hi
    cases i with
    | zero => simp [offsetSum]
    | succ j =>
      have hj : j ≤ rest.length := by simpa using hi
      have := ih (base + s.length + 1) j hj
      simp only [offsetsFrom, List.getD_cons_succ] at this ⊢
      rw [this]
      simp [offsetSum, List.take_cons]
      ring

theorem blob_length (ids : List String) :
    (blob ids).length = (ids.map (fun s => s.length + 1)).sum := by
  induction ids with
  | nil => simp [blob]
  | cons s rest ih =>
    have hsl : s.data.length = s.length := rfl
    simp only [blob, List.length_append, List.length_cons, List.map_cons,
      List.sum_cons, ih, hsl]
    omega

theorem blob_drop (ids : List String) :
    ∀ i, i ≤ ids.length →
      (blob ids).drop (offsetSum ids i) = blob (ids.drop i) := by
  induction ids with
  | nil =>
    intro i hi
    have hi0 : i = 0 := by simpa using hi
    subst hi0
    simp [offsetSum]
  | cons s rest ih =>
    intro i hi
    cases i with
    | zero => simp [offsetSum]
    | succ j =>
      have hj : j ≤ rest.length := by simpa using hi
      have hsl : s.data.length = s.length := rfl
      have key : offsetSum (s :: rest) (j + 1) =
          (s.data ++ ['\x00']).length + offsetSum rest j := by
        simp only [offsetSum, List.take_succ_cons, List.map_cons, List.sum_cons,
          List.length_append, List.length_cons, List.length_nil, hsl]
      have assoc : blob (s :: rest) = (s.data ++ ['\x00']) ++ blob rest := by
        simp [blob]
      rw [key, assoc, List.drop_append, ih j hj]
      simp

theorem offsetsFrom_getLastD (ids : List String) :
    ∀ base d : ℕ,
      (base :: offsetsFrom base ids).getLastD d = base + offsetSum ids ids.length := by
  induction ids with
  | nil => intro base d; simp [offsetsFrom, offsetSum]
  | cons s rest ih =>
    intro base d
    have := ih (base + s.length + 1) base
    simp only [offsetsFrom] at this ⊢
    rw [List.getLastD_cons, this]
    simp only [offsetSum, List.length_cons, List.take_succ_cons, List.map_cons,
      List.sum_cons, List.take_length]
    ring

theorem sorted_lt_filter (ids : List String) (hs : ids.Sorted (· < ·)) :
    ∀ i, i < ids.length →
      ids.filter (fun s => decide (s < ids.getD i "")) = ids.take i := by
  induction ids with
  | nil => intro i hi; simp at hi
  | cons a rest ih =>
    intro i hi
    have ha : ∀ x ∈ rest, a < x := by
      intro x hx
      exact (List.sorted_cons.mp hs).1 x hx
    cases i with
    | zero =>
      simp only [List.getD_cons_zero, List.take_zero]
      apply List.filter_eq_nil_iff.mpr
      intro x hx
      rcases List.mem_cons.mp hx with rfl | hx
      · simp
      · simp only [decide_eq_true_eq]
        exact fun h => absurd (ha x hx) (lt_asymm h)
    | succ j =>
      have hrest : rest.Sorted (· < ·) := (List.sorted_cons.mp hs).2
      have hj : j < rest.length := by simpa using hi
      have hbmem : rest.getD j "" ∈ rest := by
        rw [List.getD_eq_getElem?_getD, List.getElem?_eq_getElem hj]
        exact List.getElem_mem hj
      have hab : a < rest.getD j "" := ha _ hbmem
      simp only [List.getD_cons_succ, List.take_succ_cons]
      rw [List.filter_cons_of_pos (by simpa using hab)]
      rw [ih hrest j hj]

theorem sortedTzIds_sorted_lt {Geo : Type} (tzLayer : List (TzFeature Geo)) :
    (sortedTzIds tzLayer).Sorted (· < ·) := by
  have hsle : (sortedTzIds tzLayer).Sorted (· ≤ ·) :=
    List.sorted_insertionSort (· ≤ ·) _
  have hnd : (sortedTzIds tzLayer).Nodup :=
    (List.perm_insertionSort (· ≤ ·) _).nodup_iff.mpr
      (List.nodup_dedup (collectTzIds tzLayer))
  exact hsle.lt_of_le hnd

/-- C3: for every index `i` into the sorted deduplicated identifier list, the
enumeration's `i`-th entry pairs the identifier's symbolic name with an
offset equal to the sum of `length + 1` over the identifiers sorting strictly
before it, and the blob, from that byte offset on, is exactly the
identifier's characters followed by its null terminator and the remaining
entries. -/
theorem enum_offset_correct {Geo : Type} (tzLayer : List (TzFeature Geo))
    (i : ℕ) (hi : i < (sortedTzIds tzLayer).length) :
    (enumEntries (sortedTzIds tzLayer)).getD i ("", 0) =
      (tzIdToEnum ((sortedTzIds tzLayer).getD i ""),
        (((sortedTzIds tzLayer).filter
            (fun s => decide (s < (sortedTzIds tzLayer).getD i ""))).map
          (fun s => s.length + 1)).sum) ∧
    (blob (sortedTzIds tzLayer)).drop
        ((enumEntries (sortedTzIds tzLayer)).getD i ("", 0)).2 =
      ((sortedTzIds tzLayer).getD i "").data ++
        '\x00' :: blob ((sortedTzIds tzLayer).drop (i + 1)) := by
  set ids := sortedTzIds tzLayer with hids
  have hfilter : ids.filter (fun s => decide (s < ids.getD i "")) = ids.take i :=
    sorted_lt_filter ids (sortedTzIds_sorted_lt tzLayer) i hi
  have hofflen : (buildOffsets ids).length = ids.length + 1 := by
    have : ∀ (l : List String) (b : ℕ), (offsetsFrom b l).length = l.length := by
      intro l
      induction l with
      | nil => intro b; simp [offsetsFrom]
      | cons s rest ih => intro b; simp [offsetsFrom, ih]
    simp [buildOffsets, this]
  have hzip : (enumEntries ids).getD i ("", 0) =
      (tzIdToEnum (ids.getD i ""), (buildOffsets ids).getD i 0) := by
    have hlen : i < ((ids.map tzIdToEnum).zip (buildOffsets ids)).length := by
      simp [List.length_zip, hofflen]
      omega
    have h1 : i < (ids.map tzIdToEnum).length := by simpa using hi
    have h2 : i < (buildOffsets ids).length := by omega
    rw [enumEntries, List.getD_eq_getElem?_getD, List.getElem?_eq_getElem hlen]
    simp only [List.getElem_zip, List.getElem_map, Option.getD_some]
    rw [List.getD_eq_getElem?_getD, List.getElem?_eq_getElem hi,
      List.getD_eq_getElem?_getD, List.getElem?_eq_getElem h2]
    simp
  have hoff : (buildOffsets ids).getD i 0 = offsetSum ids i := by
    have := offsetsFrom_getD ids 0 i (le_of_lt hi)
    simpa [buildOffsets] using this
  constructor
  · rw [hzip, hoff, hfilter, offsetSum]
  · rw [hzip]
    simp only
    rw [hoff, blob_drop ids i (le_of_lt hi)]
    have : ids.drop i = ids.getD i "" :: ids.drop (i + 1) := by
      rw [List.getD_eq_getElem?_getD, List.getElem?_eq_getElem hi, Option.getD_some]
      exact List.drop_eq_getElem_cons hi
    rw [this, blob]

/-- C4: the `Undefined` sentinel's offset is the last offset minus one, which
equals both the sum of `length + 1` over all distinct identifiers minus one
and the index of the blob's final byte (its length minus one). -/
theorem undefined_offset_correct {Geo : Type} (tzLayer : List (TzFeature Geo)) :
    undefinedOffset (sortedTzIds tzLayer) =
      ((((sortedTzIds tzLayer).map (fun s => s.length + 1)).sum : ℕ) : ℤ) - 1 ∧
    undefinedOffset (sortedTzIds tzLayer) =
      ((blob (sortedTzIds tzLayer)).length : ℤ) - 1 := by
  set ids := sortedTzIds tzLayer with hids
  have hlast : (buildOffsets ids).getLastD 0 = offsetSum ids ids.length := by
    have := offsetsFrom_getLastD ids 0 0
    simpa [buildOffsets] using this
  have hsum : offsetSum ids ids.length = (ids.map (fun s => s.length + 1)).sum := by
    simp [offsetSum]
  constructor
  · rw [undefinedOffset, hlast, hsum]
  · rw [undefinedOffset, hlast, hsum, blob_length]

/-! ## Association list lemmas -/

theorem alookup_aupdate_self {β : Type} (m : List (String × β)) (k : String) (v : β) :
    alookup (aupdate m k v) k = some v := by
  induction m with
  | nil => simp [aupdate, alookup]
  | cons p rest ih =>
    by_cases h : p.1 = k
    · simp [aupdate, h, alookup]
    · simp [aupdate, h, alookup, ih]

theorem alookup_aupdate_ne {β : Type} (m : List (String × β)) (k k' : String) (v : β)
    (h : k' ≠ k) : alookup (aupdate m k v) k' = alookup m k' := by
  have hkk : ¬ k = k' := fun e => h e.symm
  induction m with
  | nil => simp only [aupdate, alookup, if_neg hkk]
  | cons p rest ih =>
    by_cases hp : p.1 = k
    · subst hp
      rw [show aupdate (p :: rest) p.1 v = (p.1, v) :: rest from by simp [aupdate]]
      simp only [alookup, if_neg hkk]
    · simp only [aupdate, if_neg hp, alookup]
      rw [ih]

theorem mem_akeys_aupdate {β : Type} (m : List (String × β)) (k k' : String) (v : β) :
    k' ∈ akeys (aupdate m k v) ↔ k' = k ∨ k' ∈ akeys m := by
  induction m with
  | nil => simp [aupdate, akeys]
  | cons p rest ih =>
    by_cases hp : p.1 = k
    · subst hp
      rw [show aupdate (p :: rest) p.1 v = (p.1, v) :: rest from by simp [aupdate]]
      simp only [akeys, List.map_cons, List.mem_cons]
      tauto
    · simp only [aupdate, if_neg hp, akeys, List.map_cons, List.mem_cons]
      simp only [akeys] at ih
      rw [ih]
      tauto

theorem akeys_aupdate_of_mem {β : Type} (m : List (String × β)) (k : String) (v : β)
    (h : k ∈ akeys m) : akeys (aupdate m k v) = akeys m := by
  induction m with
  | nil => simp [akeys] at h
  | cons p rest ih =>
    by_cases hp : p.1 = k
    · subst hp
      simp [aupdate, akeys]
    · have hrest : k ∈ akeys rest := by
        simp only [akeys, List.map_cons, List.mem_cons] at h
        rcases h with h | h
        · exact absurd h.symm hp
        · exact h
      simp only [aupdate, if_neg hp, akeys, List.map_cons]
      have hih := ih hrest
      simp only [akeys] at hih
      rw [hih]

theorem akeys_aupdate_of_not_mem {β : Type} (m : List (String × β)) (k : String) (v : β)
    (h : k ∉ akeys m) : akeys (aupdate m k v) = akeys m ++ [k] := by
  induction m with
  | nil => simp [aupdate, akeys]
  | cons p rest ih =>
    have hp : ¬ p.1 = k := by
      intro e
      exact h (by simp [akeys, e.symm])
    have hrest : k ∉ akeys rest := by
      intro hk
      apply h
      simp only [akeys, List.map_cons, List.mem_cons]
      simp only [akeys] at hk
      exact Or.inr hk
    simp only [aupdate, if_neg hp, akeys, List.map_cons, List.cons_append]
    have hih := ih hrest
    simp only [akeys] at hih
    rw [hih]

theorem nodup_akeys_aupdate {β : Type} (m : List (String × β)) (k : String) (v : β)
    (h : (akeys m).Nodup) : (akeys (aupdate m k v)).Nodup := by
  by_cases hk : k ∈ akeys m
  · rw [akeys_aupdate_of_mem m k v hk]; exact h
  · rw [akeys_aupdate_of_not_mem m k v hk]
    simpa [List.nodup_append] using ⟨h, hk⟩

theorem alookup_isSome_iff {β : Type} (m : List (String × β)) (k : String) :
    (alookup m k).isSome = true ↔ k ∈ akeys m := by
  induction m with
  | nil => simp [alookup, akeys]
  | cons p rest ih =>
    by_cases hp : p.1 = k
    · subst hp
      simp [alookup, akeys]
    · simp only [alookup, if_neg hp, akeys, List.map_cons, List.mem_cons]
      rw [ih]
      simp only [akeys]
      constructor
      · exact Or.inr
      · rintro (h | h)
        · exact absurd h.symm hp
        · exact h

/-! ## Choice function lemmas -/

theorem pickD_valid (s : List String) (hs : s ≠ []) : pickD s ∈ s := by
  cases s with
  | nil => exact absurd rfl hs
  | cons a rest => simp [pickD]

theorem pick_singleton (pick : List String → String)
    (hpick : ∀ l : List String, l ≠ [] → pick l ∈ l) (t : String) :
    pick [t] = t := by
  have := hpick [t] (List.cons_ne_nil t [])
  simpa using this

/-! ## Threshold evaluation on the concrete engines -/

theorem allE_tzRegionMatch (a b : ℕ) : tzRegionMatch allE a b = true := by
  simp only [tzRegionMatch, allE, Bool.true_and, Bool.or_eq_true, decide_eq_true_eq]
  norm_num

theorem allE_countryTzMatch (a b : ℕ) : countryTzMatch allE a b = true := by
  simp only [countryTzMatch, allE, Bool.true_and, Bool.or_eq_true, decide_eq_true_eq]
  norm_num

theorem allE_interArea (a b : ℕ) : allE.interArea a b = 1 := rfl

theorem eqE_tzRegionMatch (a b : ℕ) : tzRegionMatch eqE a b = (a == b) := by
  by_cases h : a = b
  · subst h
    simp only [tzRegionMatch, eqE, beq_self_eq_true, Bool.true_and, Bool.or_eq_true,
      decide_eq_true_eq]
    norm_num
  · simp [tzRegionMatch, eqE, h]

theorem eqE_countryTzMatch (a b : ℕ) : countryTzMatch eqE a b = (a == b) := by
  by_cases h : a = b
  · subst h
    simp only [countryTzMatch, eqE, beq_self_eq_true, Bool.true_and, Bool.or_eq_true,
      decide_eq_true_eq]
    norm_num
  · simp [countryTzMatch, eqE, h]

/-! ## Fold lemmas for the accumulating loops -/

theorem mem_linsert (l : List String) (x y : String) :
    y ∈ linsert l x ↔ y = x ∨ y ∈ l := by
  by_cases h : x ∈ l
  · simp only [linsert, if_pos h]
    constructor
    · exact Or.inr
    · rintro (rfl | hy)
      · exact h
      · exact hy
  · simp [linsert, if_neg h, or_comm]

theorem nodup_linsert (l : List String) (x : String) (h : l.Nodup) :
    (linsert l x).Nodup := by
  by_cases hx : x ∈ l
  · simpa [linsert, if_pos hx] using h
  · simp only [linsert, if_neg hx]
    simpa [List.nodup_append] using ⟨h, hx⟩

theorem foldl_linsert_mem {γ : Type} (f : γ → String) (p : γ → Prop) [DecidablePred p] :
    ∀ (l : List γ) (init : List String) (x : String),
      x ∈ l.foldl (fun acc t => if p t then linsert acc (f t) else acc) init ↔
        x ∈ init ∨ ∃ t ∈ l, p t ∧ f t = x := by
  intro l
  induction l with
  | nil => simp
  | cons t rest ih =>
    intro init x
    simp only [List.foldl_cons]
    by_cases hp : p t
    · rw [if_pos hp, ih]
      rw [mem_linsert]
      simp only [List.mem_cons]
      constructor
      · rintro ((rfl | h) | ⟨u, hu, hpu, rfl⟩)
        · exact Or.inr ⟨t, Or.inl rfl, hp, rfl⟩
        · exact Or.inl h
        · exact Or.inr ⟨u, Or.inr hu, hpu, rfl⟩
      · rintro (h | ⟨u, (rfl | hu), hpu, rfl⟩)
        · exact Or.inl (Or.inr h)
        · exact Or.inl (Or.inl rfl)
        · exact Or.inr ⟨u, hu, hpu, rfl⟩
    · rw [if_neg hp, ih]
      simp only [List.mem_cons]
      constructor
      · rintro (h | ⟨u, hu, hpu, rfl⟩)
        · exact Or.inl h
        · exact Or.inr ⟨u, Or.inr hu, hpu, rfl⟩
      · rintro (h | ⟨u, (rfl | hu), hpu, rfl⟩)
        · exact Or.inl h
        · exact absurd hpu hp
        · exact Or.inr ⟨u, hu, hpu, rfl⟩

theorem foldl_linsert_nodup {γ : Type} (f : γ → String) (p : γ → Prop) [DecidablePred p] :
    ∀ (l : List γ) (init : List String), init.Nodup →
      (l.foldl (fun acc t => if p t then linsert acc (f t) else acc) init).Nodup := by
  intro l
  induction l with
  | nil => intro init h; simpa using h
  | cons t rest ih =>
    intro init h
    simp only [List.foldl_cons]
    by_cases hp : p t
    · rw [if_pos hp]
      exact ih _ (nodup_linsert _ _ h)
    · rw [if_neg hp]
      exact ih _ h

theorem foldl_aupdate_keys {β γ : Type} (key : γ → String)
    (val : List (String × β) → γ → β) :
    ∀ (l : List γ) (m : List (String × β)) (k : String),
      k ∈ akeys (l.foldl (fun m t => aupdate m (key t) (val m t)) m) ↔
        k ∈ akeys m ∨ k ∈ l.map key := by
  intro l
  induction l with
  | nil => simp
  | cons t rest ih =>
    intro m k
    simp only [List.foldl_cons, List.map_cons, List.mem_cons]
    rw [ih, mem_akeys_aupdate]
    tauto

theorem foldl_aupdate_keys_nodup {β γ : Type} (key : γ → String)
    (val : List (String × β) → γ → β) :
    ∀ (l : List γ) (m : List (String × β)), (akeys m).Nodup →
      (akeys (l.foldl (fun m t => aupdate m (key t) (val m t)) m)).Nodup := by
  intro l
  induction l with
  | nil => intro m hm; simpa using hm
  | cons t rest ih =>
    intro m hm
    simp only [List.foldl_cons]
    exact ih _ (nodup_akeys_aupdate _ _ _ hm)

theorem addTzMatches_mem {Geo : Type} (E : GeoEngine Geo) (cfg : Config)
    (tzLayer : List (TzFeature Geo)) (g : Geo) (acc : List String) (x : String) :
    x ∈ addTzMatches E cfg tzLayer g acc ↔
      x ∈ acc ∨
        ∃ tz ∈ tzLayer, tzRegionMatch E tz.geom g = true ∧ normalizedTz cfg tz.tzid = x := by
  have := foldl_linsert_mem (fun tz : TzFeature Geo => normalizedTz cfg tz.tzid)
    (fun tz => tzRegionMatch E tz.geom g = true) tzLayer acc x
  simpa [addTzMatches] using this

theorem addCountryMatches_mem {Geo : Type} (E : GeoEngine Geo) (cfg : Config)
    (countryLayer : List (RegionFeature Geo)) (g : Geo) (acc : List String) (x : String) :
    x ∈ addCountryMatches E cfg countryLayer g acc ↔
      x ∈ acc ∨
        ∃ c ∈ countryLayer,
          ((normalizedCountry cfg c.code != "") && countryTzMatch E c.geom g) = true ∧
            normalizedCountry cfg c.code = x := by
  have := foldl_linsert_mem (fun c : RegionFeature Geo => normalizedCountry cfg c.code)
    (fun c => ((normalizedCountry cfg c.code != "") && countryTzMatch E c.geom g) = true)
    countryLayer acc x
  simpa [addCountryMatches] using this

/-! ## Subdivision loop helper lemmas -/

theorem buildSubdivToTzGo_isSome {Geo : Type} (E : GeoEngine Geo) (cfg : Config)
    (countryToTz : List (String × List String)) (tzLayer : List (TzFeature Geo)) :
    ∀ (sdl : List (RegionFeature Geo)) (m : List (String × List (String × ℚ))),
      (∀ sd ∈ sdl, (alookup countryToTz (sd.code.take 2)).isSome = true) →
      (buildSubdivToTzGo E cfg countryToTz tzLayer sdl m).isSome = true := by
  intro sdl
  induction sdl with
  | nil => intro m _; simp [buildSubdivToTzGo]
  | cons sd rest ih =>
    intro m h
    have hsd : (alookup countryToTz (sd.code.take 2)).isSome = true :=
      h sd (List.mem_cons_self sd rest)
    obtain ⟨ctz, hctz⟩ := Option.isSome_iff_exists.mp hsd
    have hrest : ∀ sd ∈ rest, (alookup countryToTz (sd.code.take 2)).isSome = true :=
      fun sd hm => h sd (List.mem_cons_of_mem _ hm)
    simp only [buildSubdivToTzGo, hctz]
    by_cases hc : ctz.length ≤ 1
    · rw [if_pos hc]; exact ih _ hrest
    · rw [if_neg hc]; exact ih _ hrest

/-- C10: the subdivision pass looks up each subdivision's two-letter prefix
in `countryToTz` with no membership guard.  If every subdivision feature's
prefix occurs as a country code in the country layer the error branch is
unreachable and the pass completes; and there is an input — a subdivision
whose prefix matches no country — on which the pass aborts with a `KeyError`
(modelled as `none`). -/
theorem subdiv_prefix_keyerror :
    (∀ (Geo : Type) (E : GeoEngine Geo) (cfg : Config)
        (cl sdl : List (RegionFeature Geo)) (tl : List (TzFeature Geo)),
      (∀ sd ∈ sdl, sd.code.take 2 ∈ cl.map (·.code)) →
      (buildSubdivToTz E cfg (buildCountryToTz E cfg cl tl) sdl tl).isSome = true) ∧
    buildSubdivToTz allE emptyConfig (buildCountryToTz allE emptyConfig [] [])
      [⟨"AA-X", 0⟩] [] = none := by
  constructor
  · intro Geo E cfg cl sdl tl h
    apply buildSubdivToTzGo_isSome
    intro sd hsd
    rw [alookup_isSome_iff]
    have hmem := h sd hsd
    have hkeys := foldl_aupdate_keys (fun c : RegionFeature Geo => c.code)
      (fun m c => addTzMatches E cfg tl c.geom ((alookup m c.code).getD [])) cl []
      (sd.code.take 2)
    rw [show (buildCountryToTz E cfg cl tl) =
        cl.foldl (fun m c =>
          aupdate m c.code (addTzMatches E cfg tl c.geom ((alookup m c.code).getD []))) []
      from rfl]
    rw [hkeys]
    exact Or.inr hmem
  · rfl

/-- Witness for C10 at a concrete input whose single subdivision prefix does
occur in the country layer. -/
theorem subdiv_prefix_keyerror_witness :
    (buildSubdivToTz allE emptyConfig
      (buildCountryToTz allE emptyConfig [⟨"AA", 0⟩] []) [⟨"AA-X", 1⟩] []).isSome = true :=
  subdiv_prefix_keyerror.1 ℕ allE emptyConfig [⟨"AA", 0⟩] [⟨"AA-X", 1⟩] [] (by decide)

/-- C1: at `tzLayerC1` two features share the raw id `"T"`; the dict built by
`TimezoneToCountryMapTask.run` holds only the second feature's match set
`["BB"]` (the always-true guard `if not tz in tzToCountry:` resets the entry
per feature), while the union accumulated over all features with that id is
`["AA", "BB"]`, so the code's candidate set differs from the claimed one. -/
theorem tz_candidates_reset_bug :
    alookup (buildTzToCountry eqE emptyConfig tzLayerC1 countryLayerC1) "T" =
      some ["BB"] ∧
    tzCandidatesSpec eqE emptyConfig tzLayerC1 countryLayerC1 "T" = ["AA", "BB"] ∧
    alookup (buildTzToCountry eqE emptyConfig tzLayerC1 countryLayerC1) "T" ≠
      some (tzCandidatesSpec eqE emptyConfig tzLayerC1 countryLayerC1 "T") := by
  have h1 : alookup (buildTzToCountry eqE emptyConfig tzLayerC1 countryLayerC1) "T" =
      some ["BB"] := by
    norm_num [buildTzToCountry, tzLayerC1, countryLayerC1, countryMatchSet,
      addCountryMatches, eqE_countryTzMatch, normalizedCountry, emptyConfig, linsert,
      aupdate, alookup]
    decide
  have h2 : tzCandidatesSpec eqE emptyConfig tzLayerC1 countryLayerC1 "T" =
      ["AA", "BB"] := by
    norm_num [tzCandidatesSpec, tzLayerC1, countryLayerC1, addCountryMatches,
      eqE_countryTzMatch, normalizedCountry, emptyConfig, linsert]
    decide
  refine ⟨h1, h2, ?_⟩
  rw [h1, h2]
  decide

/-- C8: `disambiguateCountries` returns any set whose size is not two
unchanged; on a two-element set it removes the secondary member of the first
disambiguation pair whose members are both present (and leaves the set
unchanged when no pair matches); and in the timezone→country table each raw
id gets a data row exactly when one country remains after disambiguation
(with that country as the value) and a comment-only placeholder otherwise. -/
theorem tz_to_country_disambiguation {Geo : Type} (E : GeoEngine Geo) (cfg : Config)
    (tzLayer : List (TzFeature Geo)) (countryLayer : List (RegionFeature Geo))
    (pick : List String → String)
    (hpick : ∀ l : List String, l ≠ [] → pick l ∈ l) :
    (∀ S : List String, S.length ≠ 2 → disambiguateCountries cfg S = S) ∧
    (∀ S : List String, S.length = 2 →
      (∀ p, cfg.ISO3166_1_DISAMBIGUATION_MAP.find?
          (fun q => decide (q.1 ∈ S) && decide (q.2 ∈ S)) = some p →
        disambiguateCountries cfg S = S.erase p.2) ∧
      (cfg.ISO3166_1_DISAMBIGUATION_MAP.find?
          (fun q => decide (q.1 ∈ S) && decide (q.2 ∈ S)) = none →
        disambiguateCountries cfg S = S)) ∧
    (∀ tzId ∈ akeys (buildTzToCountry E cfg tzLayer countryLayer),
      (∀ c, disambiguateCountries cfg
          ((alookup (buildTzToCountry E cfg tzLayer countryLayer) tzId).getD []) = [c] →
        OutLine.row (tzIdToEnum tzId) c ∈
          timezoneCountryLines E cfg tzLayer countryLayer pick) ∧
      ((disambiguateCountries cfg
          ((alookup (buildTzToCountry E cfg tzLayer countryLayer) tzId).getD [])).length ≠ 1 →
        OutLine.comment (tzIdToEnum tzId) ∈
          timezoneCountryLines E cfg tzLayer countryLayer pick)) := by
  refine ⟨?_, ?_, ?_⟩
  · intro S h
    rw [disambiguateCountries, if_pos h]
  · intro S h
    constructor
    · intro p hp
      rw [disambiguateCountries, if_neg (by simp [h]), hp]
    · intro hp
      rw [disambiguateCountries, if_neg (by simp [h]), hp]
  · intro tzId htz
    have hmem : tzId ∈ (akeys (buildTzToCountry E cfg tzLayer countryLayer)).insertionSort
        (· ≤ ·) :=
      (List.perm_insertionSort (· ≤ ·) _).mem_iff.mpr htz
    constructor
    · intro c hc
      refine List.mem_map.mpr ⟨tzId, hmem, ?_⟩
      simp only [hc, List.length_cons, List.length_nil, if_true]
      simp [pick_singleton pick hpick]
    · intro hne
      refine List.mem_map.mpr ⟨tzId, hmem, ?_⟩
      simp only
      rw [if_neg hne]

/-- Witness for C8: on the empty disambiguation configuration the empty set
(size zero, not two) is returned unchanged. -/
theorem tz_to_country_disambiguation_witness :
    disambiguateCountries emptyConfig [] = [] :=
  (tz_to_country_disambiguation allE emptyConfig [] [] pickD pickD_valid).1 []
    (by decide)

/-- C2 counterexample: with `TZID_MAP = {"X": "Y"}` and a single timezone
feature with raw id `"X"` overlapping country `"AA"`, the country→timezone
table emits the reference `Tz::Y`, but the enumeration of task 1 only
contains `tzIdToEnum` of the raw id `"X"`; the referenced identifier is not
an enumerator. -/
theorem refs_not_in_enum_counterexample :
    "Y" ∈ tableTzRefs
        (countryLines allE cfgC2 countryLayerC2 tzLayerC2 pickD)
        (((buildSubdivToTz allE cfgC2 (buildCountryToTz allE cfgC2 countryLayerC2 tzLayerC2)
            [] tzLayerC2).map subdivisionLines).getD [])
        (timezoneCountryLines allE cfgC2 tzLayerC2 countryLayerC2 pickD) ∧
    ¬ ∃ raw ∈ collectTzIds tzLayerC2, tzIdToEnum raw = "Y" := by
  have hb : buildCountryToTz allE cfgC2 countryLayerC2 tzLayerC2 = [("AA", ["Y"])] := by
    norm_num [buildCountryToTz, countryLayerC2, tzLayerC2, addTzMatches,
      allE_tzRegionMatch, normalizedTz, cfgC2, linsert, aupdate, alookup]
  have ht : buildTzToCountry allE cfgC2 tzLayerC2 countryLayerC2 = [("X", ["AA"])] := by
    norm_num [buildTzToCountry, tzLayerC2, countryLayerC2, countryMatchSet,
      addCountryMatches, allE_countryTzMatch, normalizedCountry, cfgC2, linsert,
      aupdate, alookup]
    decide
  constructor
  · simp only [tableTzRefs, countryLines, timezoneCountryLines, hb, ht]
    decide
  · decide

/-! ## Keyed-line grouping lemmas -/

@[simp] theorem OutLine_key_row (k v : String) : (OutLine.row k v).key = k := rfl

@[simp] theorem OutLine_key_comment (c : String) : (OutLine.comment c).key = c := rfl

theorem filterMap_group_filter (f : String → Option OutLine)
    (hf : ∀ c l, f c = some l → l.key = c) :
    ∀ (K : List String), K.Nodup → ∀ c : String,
      (K.filterMap f).filter (fun l => l.key == c) = if c ∈ K then (f c).toList else [] := by
  intro K
  induction K with
  | nil => intro _ c; simp
  | cons k rest ih =>
    intro hnd c
    have hk : k ∉ rest := (List.nodup_cons.mp hnd).1
    have hrest : rest.Nodup := (List.nodup_cons.mp hnd).2
    cases hfk : f k with
    | none =>
      rw [List.filterMap_cons_none hfk, ih hrest c]
      by_cases hck : c = k
      · subst hck
        rw [if_neg hk, if_pos (List.mem_cons_self c rest), hfk]
        rfl
      · simp [List.mem_cons, hck]
    | some l =>
      have hkey : l.key = k := hf k l hfk
      rw [List.filterMap_cons_some hfk]
      by_cases hck : c = k
      · subst hck
        rw [List.filter_cons_of_pos (by simp [hkey]), ih hrest c, if_neg hk,
          if_pos (List.mem_cons_self c rest), hfk]
        rfl
      · rw [List.filter_cons_of_neg (by simp [hkey]; exact fun e => hck e.symm), ih hrest c]
        simp [List.mem_cons, hck]

theorem filterMap_keys_sublist (f : String → Option OutLine)
    (hf : ∀ c l, f c = some l → l.key = c) :
    ∀ K : List String, ((K.filterMap f).map OutLine.key).Sublist K := by
  intro K
  induction K with
  | nil => simp
  | cons k rest ih =>
    cases hfk : f k with
    | none =>
      rw [List.filterMap_cons_none hfk]
      exact ih.cons k
    | some l =>
      rw [List.filterMap_cons_some hfk, List.map_cons, hf k l hfk]
      exact ih.cons₂ k

theorem flatMap_group_filter (g : String → List OutLine)
    (hg : ∀ c, ∀ l ∈ g c, l.key = c) :
    ∀ (K : List String), K.Nodup → ∀ c : String,
      (K.flatMap g).filter (fun l => l.key == c) = if c ∈ K then g c else [] := by
  intro K
  induction K with
  | nil => intro _ c; simp
  | cons k rest ih =>
    intro hnd c
    have hk : k ∉ rest := (List.nodup_cons.mp hnd).1
    have hrest : rest.Nodup := (List.nodup_cons.mp hnd).2
    rw [List.flatMap_cons, List.filter_append, ih hrest c]
    by_cases hck : c = k
    · subst hck
      rw [if_neg hk, if_pos (List.mem_cons_self c rest), List.append_nil]
      apply List.filter_eq_self.mpr
      intro l hl
      simp [hg c l hl]
    · have : (g k).filter (fun l => l.key == c) = [] := by
        apply List.filter_eq_nil_iff.mpr
        intro l hl
        simp [hg k l hl]
        exact fun e => hck e.symm
      rw [this, List.nil_append]
      simp [List.mem_cons, hck]

theorem flatMap_group_sorted (g : String → List OutLine)
    (hg : ∀ c, ∀ l ∈ g c, l.key = c) :
    ∀ K : List String, K.Sorted (· ≤ ·) →
      ((K.flatMap g).map OutLine.key).Sorted (· ≤ ·) := by
  intro K
  induction K with
  | nil => intro _; simp
  | cons k rest ih =>
    intro hs
    have hrest : rest.Sorted (· ≤ ·) := (List.sorted_cons.mp hs).2
    have hle : ∀ c ∈ rest, k ≤ c := (List.sorted_cons.mp hs).1
    rw [List.flatMap_cons, List.map_append]
    rw [List.Sorted, List.pairwise_append]
    refine ⟨?_, ih hrest, ?_⟩
    · apply List.pairwise_of_forall_mem_list
      intro a ha b hb
      rw [List.mem_map] at ha hb
      obtain ⟨la, hla, rfl⟩ := ha
      obtain ⟨lb, hlb, rfl⟩ := hb
      rw [hg k la hla, hg k lb hlb]
    · intro a ha b hb
      rw [List.mem_map] at ha hb
      obtain ⟨la, hla, rfl⟩ := ha
      obtain ⟨lb, hlb, rfl⟩ := hb
      rw [List.mem_flatMap] at hlb
      obtain ⟨c, hc, hlbc⟩ := hlb
      rw [hg k la hla, hg c lb hlbc]
      exact hle c hc

/-- C5: for a country code occurring in the country layer, if its accumulated
set of qualifying normalized timezone ids is the singleton `[t]` then the
country→timezone table contains exactly one row for that code, mapping it to
`t`'s enum symbol; if the set has any other size the code gets no row; and
the emitted rows are sorted lexicographically by country code. -/
theorem country_table_correct {Geo : Type} (E : GeoEngine Geo) (cfg : Config)
    (countryLayer : List (RegionFeature Geo)) (tzLayer : List (TzFeature Geo))
    (pick : List String → String)
    (hpick : ∀ l : List String, l ≠ [] → pick l ∈ l)
    (code : String) (hcode : code ∈ countryLayer.map (·.code)) :
    (∀ t, (alookup (buildCountryToTz E cfg countryLayer tzLayer) code).getD [] = [t] →
        (countryLines E cfg countryLayer tzLayer pick).count
            (OutLine.row code (tzIdToEnum t)) = 1 ∧
          ∀ l ∈ countryLines E cfg countryLayer tzLayer pick,
            l.key = code → l = OutLine.row code (tzIdToEnum t)) ∧
    (((alookup (buildCountryToTz E cfg countryLayer tzLayer) code).getD []).length ≠ 1 →
      ∀ l ∈ countryLines E cfg countryLayer tzLayer pick, l.key ≠ code) ∧
    ((countryLines E cfg countryLayer tzLayer pick).map OutLine.key).Sorted (· ≤ ·) := by
  have hkeysmem : code ∈ akeys (buildCountryToTz E cfg countryLayer tzLayer) := by
    rw [show (buildCountryToTz E cfg countryLayer tzLayer) =
        countryLayer.foldl (fun m c =>
          aupdate m c.code (addTzMatches E cfg tzLayer c.geom ((alookup m c.code).getD []))) []
      from rfl]
    rw [foldl_aupdate_keys (fun c : RegionFeature Geo => c.code)
      (fun m c => addTzMatches E cfg tzLayer c.geom ((alookup m c.code).getD []))]
    exact Or.inr hcode
  have hkeysnodup : (akeys (buildCountryToTz E cfg countryLayer tzLayer)).Nodup := by
    rw [show (buildCountryToTz E cfg countryLayer tzLayer) =
        countryLayer.foldl (fun m c =>
          aupdate m c.code (addTzMatches E cfg tzLayer c.geom ((alookup m c.code).getD []))) []
      from rfl]
    exact foldl_aupdate_keys_nodup _ _ countryLayer [] (by simp [akeys])
  have hKnd : ((akeys (buildCountryToTz E cfg countryLayer tzLayer)).insertionSort
      (· ≤ ·)).Nodup :=
    (List.perm_insertionSort (· ≤ ·) _).nodup_iff.mpr hkeysnodup
  have hKmem : code ∈ (akeys (buildCountryToTz E cfg countryLayer tzLayer)).insertionSort
      (· ≤ ·) :=
    (List.perm_insertionSort (· ≤ ·) _).mem_iff.mpr hkeysmem
  have hf : ∀ c l, (fun c =>
      if ((alookup (buildCountryToTz E cfg countryLayer tzLayer) c).getD []).length = 1 then
        some (OutLine.row c (tzIdToEnum
          (pick ((alookup (buildCountryToTz E cfg countryLayer tzLayer) c).getD []))))
      else none) c = some l → l.key = c := by
    intro c l hcl
    have hcl' : (if ((alookup (buildCountryToTz E cfg countryLayer tzLayer) c).getD
          []).length = 1 then
        some (OutLine.row c (tzIdToEnum
          (pick ((alookup (buildCountryToTz E cfg countryLayer tzLayer) c).getD []))))
      else none) = some l := hcl
    by_cases h : ((alookup (buildCountryToTz E cfg countryLayer tzLayer) c).getD []).length = 1
    · rw [if_pos h] at hcl'
      cases hcl'
      rfl
    · rw [if_neg h] at hcl'
      cases hcl' 
  have hfilter := filterMap_group_filter _ hf
    ((akeys (buildCountryToTz E cfg countryLayer tzLayer)).insertionSort (· ≤ ·)) hKnd code
  rw [if_pos hKmem] at hfilter
  refine ⟨?_, ?_, ?_⟩
  · intro t ht
    have hft : (if ((alookup (buildCountryToTz E cfg countryLayer tzLayer) code).getD
          []).length = 1 then
        some (OutLine.row code (tzIdToEnum
          (pick ((alookup (buildCountryToTz E cfg countryLayer tzLayer) code).getD []))))
      else none) = some (OutLine.row code (tzIdToEnum t)) := by
      rw [ht]
      simp [pick_singleton pick hpick]
    constructor
    · have hcnt : (countryLines E cfg countryLayer tzLayer pick).count
          (OutLine.row code (tzIdToEnum t)) =
          ((countryLines E cfg countryLayer tzLayer pick).filter
            (fun l => l.key == code)).count (OutLine.row code (tzIdToEnum t)) := by
        rw [List.count_filter]
        simp
      rw [hcnt, countryLines, hfilter, hft]
      simp
    · intro l hl hlk
      have : l ∈ (countryLines E cfg countryLayer tzLayer pick).filter
          (fun l => l.key == code) := by
        rw [List.mem_filter]
        exact ⟨hl, by simp [hlk]⟩
      rw [countryLines, hfilter, hft] at this
      simpa using this
  · intro hlen l hl hlk
    have hfnone : (if ((alookup (buildCountryToTz E cfg countryLayer tzLayer) code).getD
          []).length = 1 then
        some (OutLine.row code (tzIdToEnum
          (pick ((alookup (buildCountryToTz E cfg countryLayer tzLayer) code).getD []))))
      else none) = none := by
      rw [if_neg hlen]
    have : l ∈ (countryLines E cfg countryLayer tzLayer pick).filter
        (fun l => l.key == code) := by
      rw [List.mem_filter]
      exact ⟨hl, by simp [hlk]⟩
    rw [countryLines, hfilter, hfnone] at this
    simp at this
  · have := filterMap_keys_sublist _ hf
      ((akeys (buildCountryToTz E cfg countryLayer tzLayer)).insertionSort (· ≤ ·))
    exact (List.sorted_insertionSort (· ≤ ·) _).sublist this

/-- Witness for C5: on a one-country layer with no timezone features the
country's match set is empty, so the zero-match branch applies and the row
keys are sorted. -/
theorem country_table_correct_witness :
    (((alookup (buildCountryToTz allE emptyConfig [⟨"AA", 0⟩]
          ([] : List (TzFeature ℕ))) "AA").getD []).length ≠ 1 →
      ∀ l ∈ countryLines allE emptyConfig [⟨"AA", 0⟩] [] pickD, l.key ≠ "AA") ∧
    ((countryLines allE emptyConfig [⟨"AA", 0⟩] ([] : List (TzFeature ℕ)) pickD).map
      OutLine.key).Sorted (· ≤ ·) :=
  ⟨(country_table_correct allE emptyConfig [⟨"AA", 0⟩] [] pickD pickD_valid "AA"
      (by decide)).2.1,
    (country_table_correct allE emptyConfig [⟨"AA", 0⟩] [] pickD pickD_valid "AA"
      (by decide)).2.2⟩

/-! ## Determinism lemmas -/

theorem filterMap_fn_congr {α β : Type} (f g : α → Option β) :
    ∀ l : List α, (∀ a ∈ l, f a = g a) → l.filterMap f = l.filterMap g := by
  intro l
  induction l with
  | nil => intro _; rfl
  | cons a rest ih =>
    intro h
    rw [List.filterMap_cons, List.filterMap_cons, h a (List.mem_cons_self a rest),
      ih (fun b hb => h b (List.mem_cons_of_mem a hb))]

theorem insertionSort_eq_of_perm (l₁ l₂ : List String) (h : l₁.Perm l₂) :
    l₁.insertionSort (· ≤ ·) = l₂.insertionSort (· ≤ ·) :=
  List.eq_of_perm_of_sorted
    ((List.perm_insertionSort _ _).trans (h.trans (List.perm_insertionSort _ _).symm))
    (List.sorted_insertionSort _ _) (List.sorted_insertionSort _ _)

/-- C9: the outputs of the three generators are determined by the input
layers alone.  The only internal nondeterminism of the script is Python's
set iteration order; it enters only through `list(set)` (any permutation
`l₁`, `l₂` of the distinct raw ids — sorted before use) and through
`list(s)[0]` on singleton sets (any valid choice functions `pick₁`,
`pick₂`), and the generated table bodies coincide for every such choice, so
two runs over identical layers produce identical files. -/
theorem outputs_deterministic {Geo : Type} (E : GeoEngine Geo) (cfg : Config)
    (countryLayer subdivLayer : List (RegionFeature Geo)) (tzLayer : List (TzFeature Geo))
    (l₁ l₂ : List String)
    (h₁ : l₁.Perm ((collectTzIds tzLayer).dedup))
    (h₂ : l₂.Perm ((collectTzIds tzLayer).dedup))
    (pick₁ pick₂ : List String → String)
    (hp₁ : ∀ l : List String, l ≠ [] → pick₁ l ∈ l)
    (hp₂ : ∀ l : List String, l ≠ [] → pick₂ l ∈ l) :
    stringTableOutput l₁ = stringTableOutput l₂ ∧
    regionMapOutput E cfg countryLayer subdivLayer tzLayer pick₁ =
      regionMapOutput E cfg countryLayer subdivLayer tzLayer pick₂ ∧
    timezoneCountryLines E cfg tzLayer countryLayer pick₁ =
      timezoneCountryLines E cfg tzLayer countryLayer pick₂ := by
  have hsort : l₁.insertionSort (· ≤ ·) = l₂.insertionSort (· ≤ ·) :=
    insertionSort_eq_of_perm l₁ l₂ (h₁.trans h₂.symm)
  have hpickeq : ∀ (s : List String), s.length = 1 → pick₁ s = pick₂ s := by
    intro s hs
    obtain ⟨t, rfl⟩ := List.length_eq_one.mp hs
    rw [pick_singleton pick₁ hp₁, pick_singleton pick₂ hp₂]
  refine ⟨?_, ?_, ?_⟩
  · rw [stringTableOutput, stringTableOutput, hsort]
  · rw [regionMapOutput, regionMapOutput]
    have : countryLines E cfg countryLayer tzLayer pick₁ =
        countryLines E cfg countryLayer tzLayer pick₂ := by
      rw [countryLines, countryLines]
      apply filterMap_fn_congr
      intro c _
      by_cases h : ((alookup (buildCountryToTz E cfg countryLayer tzLayer) c).getD
          []).length = 1
      · simp only [if_pos h]
        rw [hpickeq _ h]
      · simp only [if_neg h]
    rw [this]
  · rw [timezoneCountryLines, timezoneCountryLines]
    apply List.map_congr_left
    intro tzId _
    by_cases h : (disambiguateCountries cfg
        ((alookup (buildTzToCountry E cfg tzLayer countryLayer) tzId).getD [])).length = 1
    · simp only [if_pos h]
      rw [hpickeq _ h]
    · simp only [if_neg h]

/-- Witness for C9 at the empty layers with the canonical choices. -/
theorem outputs_deterministic_witness :
    stringTableOutput [] = stringTableOutput [] ∧
    regionMapOutput allE emptyConfig [] [] [] pickD =
      regionMapOutput allE emptyConfig [] [] [] pickD ∧
    timezoneCountryLines allE emptyConfig [] [] pickD =
      timezoneCountryLines allE emptyConfig [] [] pickD :=
  outputs_deterministic allE emptyConfig [] [] [] [] [] (by decide) (by decide)
    pickD pickD pickD_valid pickD_valid

/-- Witness for C3 at a one-identifier layer, index 0. -/
theorem enum_offset_correct_witness :
    (enumEntries (sortedTzIds [(⟨"A", ()⟩ : TzFeature Unit)])).getD 0 ("", 0) =
      (tzIdToEnum ((sortedTzIds [(⟨"A", ()⟩ : TzFeature Unit)]).getD 0 ""),
        (((sortedTzIds [(⟨"A", ()⟩ : TzFeature Unit)]).filter
            (fun s => decide (s <
              (sortedTzIds [(⟨"A", ()⟩ : TzFeature Unit)]).getD 0 ""))).map
          (fun s => s.length + 1)).sum) ∧
    (blob (sortedTzIds [(⟨"A", ()⟩ : TzFeature Unit)])).drop
        ((enumEntries (sortedTzIds [(⟨"A", ()⟩ : TzFeature Unit)])).getD 0
          ("", 0)).2 =
      ((sortedTzIds [(⟨"A", ()⟩ : TzFeature Unit)]).getD 0 "").data ++
        '\x00' :: blob ((sortedTzIds [(⟨"A", ()⟩ : TzFeature Unit)]).drop (0 + 1)) :=
  enum_offset_correct [⟨"A", ()⟩] 0 (by decide)

/-! ## Characterization of the subdivision accumulation -/

theorem subdivTzAreas_keys {Geo : Type} (E : GeoEngine Geo) (cfg : Config) (g : Geo) :
    ∀ (tzLayer : List (TzFeature Geo)) (e : List (String × ℚ)) (t : String),
      t ∈ akeys (subdivTzAreas E cfg tzLayer g e) ↔
        t ∈ akeys e ∨
          ∃ tz ∈ tzLayer, tzRegionMatch E tz.geom g = true ∧ normalizedTz cfg tz.tzid = t := by
  intro tzLayer
  induction tzLayer with
  | nil => intro e t; simp [subdivTzAreas]
  | cons tz rest ih =>
    intro e t
    have hstep : subdivTzAreas E cfg (tz :: rest) g e =
        subdivTzAreas E cfg rest g
          (if tzRegionMatch E tz.geom g then
            aupdate e (normalizedTz cfg tz.tzid)
              ((alookup e (normalizedTz cfg tz.tzid)).getD 0 + E.interArea tz.geom g)
          else e) := rfl
    rw [hstep]
    cases hm : tzRegionMatch E tz.geom g with
    | false =>
      rw [if_neg (by simp [hm]), ih]
      constructor
      · rintro (h | ⟨u, hu, hum, rfl⟩)
        · exact Or.inl h
        · exact Or.inr ⟨u, List.mem_cons_of_mem tz hu, hum, rfl⟩
      · rintro (h | ⟨u, hu, hum, rfl⟩)
        · exact Or.inl h
        · rcases List.mem_cons.mp hu with rfl | hu
          · rw [hum] at hm; cases hm
          · exact Or.inr ⟨u, hu, hum, rfl⟩
    | true =>
      rw [if_pos (by simp [hm]), ih]
      rw [mem_akeys_aupdate]
      constructor
      · rintro ((rfl | h) | ⟨u, hu, hum, rfl⟩)
        · exact Or.inr ⟨tz, List.mem_cons_self tz rest, hm, rfl⟩
        · exact Or.inl h
        · exact Or.inr ⟨u, List.mem_cons_of_mem tz hu, hum, rfl⟩
      · rintro (h | ⟨u, hu, hum, rfl⟩)
        · exact Or.inl (Or.inr h)
        · rcases List.mem_cons.mp hu with rfl | hu
          · exact Or.inl (Or.inl rfl)
          · exact Or.inr ⟨u, hu, hum, rfl⟩

theorem subdivTzAreas_getD {Geo : Type} (E : GeoEngine Geo) (cfg : Config) (g : Geo) :
    ∀ (tzLayer : List (TzFeature Geo)) (e : List (String × ℚ)) (t : String),
      (alookup (subdivTzAreas E cfg tzLayer g e) t).getD 0 =
        (alookup e t).getD 0 +
          ((tzLayer.filter (fun tz =>
              (normalizedTz cfg tz.tzid == t) && tzRegionMatch E tz.geom g)).map
            (fun tz => E.interArea tz.geom g)).sum := by
  intro tzLayer
  induction tzLayer with
  | nil => intro e t; simp [subdivTzAreas]
  | cons tz rest ih =>
    intro e t
    have hstep : subdivTzAreas E cfg (tz :: rest) g e =
        subdivTzAreas E cfg rest g
          (if tzRegionMatch E tz.geom g then
            aupdate e (normalizedTz cfg tz.tzid)
              ((alookup e (normalizedTz cfg tz.tzid)).getD 0 + E.interArea tz.geom g)
          else e) := rfl
    rw [hstep]
    cases hm : tzRegionMatch E tz.geom g with
    | false =>
      rw [if_neg (by simp [hm]), ih]
      rw [List.filter_cons_of_neg (by simp [hm])]
    | true =>
      rw [if_pos (by simp [hm]), ih]
      by_cases ht : normalizedTz cfg tz.tzid = t
      · rw [List.filter_cons_of_pos (by simp [ht, hm]), List.map_cons, List.sum_cons]
        rw [ht, alookup_aupdate_self]
        simp only [Option.getD_some]
        ring
      · rw [List.filter_cons_of_neg (by simp [ht])]
        rw [alookup_aupdate_ne _ _ _ _ (fun e => ht e.symm)]

theorem subdivTzAreas_keys_nodup {Geo : Type} (E : GeoEngine Geo) (cfg : Config) (g : Geo) :
    ∀ (tzLayer : List (TzFeature Geo)) (e : List (String × ℚ)),
      (akeys e).Nodup → (akeys (subdivTzAreas E cfg tzLayer g e)).Nodup := by
  intro tzLayer
  induction tzLayer with
  | nil => intro e h; simpa [subdivTzAreas] using h
  | cons tz rest ih =>
    intro e h
    have hstep : subdivTzAreas E cfg (tz :: rest) g e =
        subdivTzAreas E cfg rest g
          (if tzRegionMatch E tz.geom g then
            aupdate e (normalizedTz cfg tz.tzid)
              ((alookup e (normalizedTz cfg tz.tzid)).getD 0 + E.interArea tz.geom g)
          else e) := rfl
    rw [hstep]
    cases hm : tzRegionMatch E tz.geom g with
    | false => exact ih _ (by rwa [if_neg (by simp [hm])])
    | true =>
      apply ih
      rw [if_pos (by simp [hm])]
      exact nodup_akeys_aupdate _ _ _ h

theorem applySds_keys {Geo : Type} (E : GeoEngine Geo) (cfg : Config)
    (tzLayer : List (TzFeature Geo)) :
    ∀ (sds : List (RegionFeature Geo)) (e : List (String × ℚ)) (t : String),
      t ∈ akeys (applySds E cfg tzLayer sds e) ↔
        t ∈ akeys e ∨
          ∃ sd ∈ sds, ∃ tz ∈ tzLayer,
            tzRegionMatch E tz.geom sd.geom = true ∧ normalizedTz cfg tz.tzid = t := by
  intro sds
  induction sds with
  | nil => intro e t; simp [applySds]
  | cons sd rest ih =>
    intro e t
    have hstep : applySds E cfg tzLayer (sd :: rest) e =
        applySds E cfg tzLayer rest (subdivTzAreas E cfg tzLayer sd.geom e) := rfl
    rw [hstep, ih, subdivTzAreas_keys]
    constructor
    · rintro ((h | ⟨tz, htz, hm, rfl⟩) | ⟨u, hu, htz⟩)
      · exact Or.inl h
      · exact Or.inr ⟨sd, List.mem_cons_self sd rest, tz, htz, hm, rfl⟩
      · exact Or.inr ⟨u, List.mem_cons_of_mem sd hu, htz⟩
    · rintro (h | ⟨u, hu, htz⟩)
      · exact Or.inl (Or.inl h)
      · rcases List.mem_cons.mp hu with rfl | hu
        · exact Or.inl (Or.inr htz)
        · exact Or.inr ⟨u, hu, htz⟩

theorem applySds_getD {Geo : Type} (E : GeoEngine Geo) (cfg : Config)
    (tzLayer : List (TzFeature Geo)) :
    ∀ (sds : List (RegionFeature Geo)) (e : List (String × ℚ)) (t : String),
      (alookup (applySds E cfg tzLayer sds e) t).getD 0 =
        (alookup e t).getD 0 + cumulativeArea E cfg tzLayer sds t := by
  intro sds
  induction sds with
  | nil => intro e t; simp [applySds, cumulativeArea]
  | cons sd rest ih =>
    intro e t
    have hstep : applySds E cfg tzLayer (sd :: rest) e =
        applySds E cfg tzLayer rest (subdivTzAreas E cfg tzLayer sd.geom e) := rfl
    rw [hstep, ih, subdivTzAreas_getD]
    have hcum : cumulativeArea E cfg tzLayer (sd :: rest) t =
        ((tzLayer.filter (fun tz =>
            (normalizedTz cfg tz.tzid == t) && tzRegionMatch E tz.geom sd.geom)).map
          (fun tz => E.interArea tz.geom sd.geom)).sum +
          cumulativeArea E cfg tzLayer rest t := by
      simp [cumulativeArea]
    rw [hcum]
    ring

theorem applySds_keys_nodup {Geo : Type} (E : GeoEngine Geo) (cfg : Config)
    (tzLayer : List (TzFeature Geo)) :
    ∀ (sds : List (RegionFeature Geo)) (e : List (String × ℚ)),
      (akeys e).Nodup → (akeys (applySds E cfg tzLayer sds e)).Nodup := by
  intro sds
  induction sds with
  | nil => intro e h; simpa [applySds] using h
  | cons sd rest ih =>
    intro e h
    exact ih _ (subdivTzAreas_keys_nodup E cfg sd.geom tzLayer e h)

theorem buildSubdivToTzGo_getD {Geo : Type} (E : GeoEngine Geo) (cfg : Config)
    (ctz : List (String × List String)) (tl : List (TzFeature Geo)) :
    ∀ (sdl : List (RegionFeature Geo)) (m sm : List (String × List (String × ℚ))),
      buildSubdivToTzGo E cfg ctz tl sdl m = some sm →
      ∀ code : String,
        (alookup sm code).getD [] =
          applySds E cfg tl
            (sdl.filter (fun sd => (sd.code == code) &&
              decide (1 < ((alookup ctz (sd.code.take 2)).getD []).length)))
            ((alookup m code).getD []) := by
  intro sdl
  induction sdl with
  | nil =>
    intro m sm hgo code
    cases hgo
    simp [applySds]
  | cons sd rest ih =>
    intro m sm hgo code
    cases hc : alookup ctz (sd.code.take 2) with
    | none =>
      simp only [buildSubdivToTzGo, hc] at hgo
      exact Option.noConfusion hgo
    | some ctzS =>
      simp only [buildSubdivToTzGo, hc] at hgo
      by_cases hl : ctzS.length ≤ 1
      · rw [if_pos hl] at hgo
        have hcond : ¬ (((sd.code == code) &&
            decide (1 < ((alookup ctz (sd.code.take 2)).getD []).length)) = true) := by
          rw [hc]
          simp only [Option.getD_some, Bool.and_eq_true, decide_eq_true_eq, beq_iff_eq]
          rintro ⟨-, h2⟩
          omega
        rw [List.filter_cons, if_neg hcond]
        exact ih m sm hgo code
      · rw [if_neg hl] at hgo
        have hrec := ih _ sm hgo code
        by_cases hsd : sd.code = code
        · have hcond : (((sd.code == code) &&
              decide (1 < ((alookup ctz (sd.code.take 2)).getD []).length)) = true) := by
            rw [hc]
            simp only [Option.getD_some, Bool.and_eq_true, decide_eq_true_eq, beq_iff_eq]
            exact ⟨hsd, by omega⟩
          rw [List.filter_cons, if_pos hcond]
          have hself : alookup (aupdate m sd.code
              (subdivTzAreas E cfg tl sd.geom ((alookup m sd.code).getD []))) code =
              some (subdivTzAreas E cfg tl sd.geom ((alookup m sd.code).getD [])) := by
            rw [← hsd]
            exact alookup_aupdate_self _ _ _
          rw [hself] at hrec
          rw [hrec]
          have : applySds E cfg tl
              (sd :: rest.filter (fun sd => (sd.code == code) &&
                decide (1 < ((alookup ctz (sd.code.take 2)).getD []).length)))
              ((alookup m code).getD []) =
              applySds E cfg tl
                (rest.filter (fun sd => (sd.code == code) &&
                  decide (1 < ((alookup ctz (sd.code.take 2)).getD []).length)))
                (subdivTzAreas E cfg tl sd.geom ((alookup m code).getD [])) := rfl
          rw [this, hsd]
          simp
        · have hcond : ¬ (((sd.code == code) &&
              decide (1 < ((alookup ctz (sd.code.take 2)).getD []).length)) = true) := by
            simp only [Bool.and_eq_true, decide_eq_true_eq, beq_iff_eq]
            rintro ⟨h1, -⟩
            exact hsd h1
          rw [List.filter_cons, if_neg hcond]
          rw [alookup_aupdate_ne _ _ _ _ (fun e => hsd e.symm)] at hrec
          exact hrec

theorem buildSubdivToTzGo_keys {Geo : Type} (E : GeoEngine Geo) (cfg : Config)
    (ctz : List (String × List String)) (tl : List (TzFeature Geo)) :
    ∀ (sdl : List (RegionFeature Geo)) (m sm : List (String × List (String × ℚ))),
      buildSubdivToTzGo E cfg ctz tl sdl m = some sm →
      ∀ code : String,
        code ∈ akeys sm ↔
          code ∈ akeys m ∨
            ∃ sd ∈ sdl, sd.code = code ∧
              1 < ((alookup ctz (sd.code.take 2)).getD []).length := by
  intro sdl
  induction sdl with
  | nil =>
    intro m sm hgo code
    cases hgo
    simp
  | cons sd rest ih =>
    intro m sm hgo code
    cases hc : alookup ctz (sd.code.take 2) with
    | none =>
      simp only [buildSubdivToTzGo, hc] at hgo
      exact Option.noConfusion hgo
    | some ctzS =>
      simp only [buildSubdivToTzGo, hc] at hgo
      by_cases hl : ctzS.length ≤ 1
      · rw [if_pos hl] at hgo
        rw [ih m sm hgo code]
        constructor
        · rintro (h | ⟨u, hu, hcu, hlen⟩)
          · exact Or.inl h
          · exact Or.inr ⟨u, List.mem_cons_of_mem sd hu, hcu, hlen⟩
        · rintro (h | ⟨u, hu, hcu, hlen⟩)
          · exact Or.inl h
          · rcases List.mem_cons.mp hu with rfl | hu
            · rw [hc] at hlen
              simp only [Option.getD_some] at hlen
              omega
            · exact Or.inr ⟨u, hu, hcu, hlen⟩
      · rw [if_neg hl] at hgo
        rw [ih _ sm hgo code, mem_akeys_aupdate]
        constructor
        · rintro ((rfl | h) | ⟨u, hu, hcu, hlen⟩)
          · exact Or.inr ⟨sd, List.mem_cons_self sd rest, rfl, by rw [hc]; simpa using by omega⟩
          · exact Or.inl h
          · exact Or.inr ⟨u, List.mem_cons_of_mem sd hu, hcu, hlen⟩
        · rintro (h | ⟨u, hu, hcu, hlen⟩)
          · exact Or.inl (Or.inr h)
          · rcases List.mem_cons.mp hu with rfl | hu
            · exact Or.inl (Or.inl hcu.symm)
            · exact Or.inr ⟨u, hu, hcu, hlen⟩

theorem buildSubdivToTzGo_keys_nodup {Geo : Type} (E : GeoEngine Geo) (cfg : Config)
    (ctz : List (String × List String)) (tl : List (TzFeature Geo)) :
    ∀ (sdl : List (RegionFeature Geo)) (m sm : List (String × List (String × ℚ))),
      buildSubdivToTzGo E cfg ctz tl sdl m = some sm →
      (akeys m).Nodup → (akeys sm).Nodup := by
  intro sdl
  induction sdl with
  | nil =>
    intro m sm hgo h
    cases hgo
    exact h
  | cons sd rest ih =>
    intro m sm hgo h
    cases hc : alookup ctz (sd.code.take 2) with
    | none =>
      simp only [buildSubdivToTzGo, hc] at hgo
      exact Option.noConfusion hgo
    | some ctzS =>
      simp only [buildSubdivToTzGo, hc] at hgo
      by_cases hl : ctzS.length ≤ 1
      · rw [if_pos hl] at hgo
        exact ih m sm hgo h
      · rw [if_neg hl] at hgo
        exact ih _ sm hgo (nodup_akeys_aupdate _ _ _ h)

/-- C6 (amended: within a subdivision the emitted rows are ordered by
non-increasing — not strictly decreasing — accumulated area, ties kept in
first-match order): the subdivision dict has exactly the codes of
subdivision features whose country prefix maps to more than one timezone;
each entry's keys are exactly the normalized timezone ids passing the
dual-threshold rule against some feature of that subdivision, with the
accumulated (summed) intersection area; one row is emitted per
(subdivision, timezone) pair, grouped by lexicographically sorted
subdivision codes and ordered within a subdivision by non-increasing
accumulated area; and codes outside the dict (in particular subdivisions of
single-timezone countries) get no lines. -/
theorem subdivision_table_correct {Geo : Type} (E : GeoEngine Geo) (cfg : Config)
    (countryLayer subdivLayer : List (RegionFeature Geo)) (tzLayer : List (TzFeature Geo))
    (sm : List (String × List (String × ℚ)))
    (hm : buildSubdivToTz E cfg (buildCountryToTz E cfg countryLayer tzLayer)
        subdivLayer tzLayer = some sm) :
    (∀ code, code ∈ akeys sm ↔
      ∃ sd ∈ subdivLayer, sd.code = code ∧
        1 < ((alookup (buildCountryToTz E cfg countryLayer tzLayer)
          (sd.code.take 2)).getD []).length) ∧
    (∀ code e, alookup sm code = some e →
      (∀ tzId, tzId ∈ akeys e ↔
        ∃ sd ∈ subdivLayer, sd.code = code ∧
          ∃ tz ∈ tzLayer, tzRegionMatch E tz.geom sd.geom = true ∧
            normalizedTz cfg tz.tzid = tzId) ∧
      (∀ tzId, (alookup e tzId).getD 0 =
        cumulativeArea E cfg tzLayer
          (subdivLayer.filter (fun sd => sd.code == code)) tzId)) ∧
    (∀ code e, alookup sm code = some e →
      (subdivisionLines sm).filter (fun l => l.key == code) =
        (sortByAreaDesc e).map (fun p => OutLine.row code (tzIdToEnum p.1)) ++
          (if e.length = 0 then [OutLine.comment code] else []) ∧
      (sortByAreaDesc e).Perm e ∧
      ((sortByAreaDesc e).map (·.2)).Sorted (fun a b : ℚ => b ≤ a)) ∧
    ((subdivisionLines sm).map OutLine.key).Sorted (· ≤ ·) ∧
    (∀ code, code ∉ akeys sm → ∀ l ∈ subdivisionLines sm, l.key ≠ code) := by
  have hgo : buildSubdivToTzGo E cfg (buildCountryToTz E cfg countryLayer tzLayer)
      tzLayer subdivLayer [] = some sm := hm
  have hkeys := buildSubdivToTzGo_keys E cfg (buildCountryToTz E cfg countryLayer tzLayer)
    tzLayer subdivLayer [] sm hgo
  have hgetD := buildSubdivToTzGo_getD E cfg (buildCountryToTz E cfg countryLayer tzLayer)
    tzLayer subdivLayer [] sm hgo
  have hnd : (akeys sm).Nodup := buildSubdivToTzGo_keys_nodup E cfg
    (buildCountryToTz E cfg countryLayer tzLayer) tzLayer subdivLayer [] sm hgo
    (by simp [akeys])
  have hkeys' : ∀ code, code ∈ akeys sm ↔
      ∃ sd ∈ subdivLayer, sd.code = code ∧
        1 < ((alookup (buildCountryToTz E cfg countryLayer tzLayer)
          (sd.code.take 2)).getD []).length := by
    intro code
    rw [hkeys code]
    simp [akeys]
  have hKnd : ((akeys sm).insertionSort (· ≤ ·)).Nodup :=
    (List.perm_insertionSort (· ≤ ·) _).nodup_iff.mpr hnd
  have hg : ∀ c, ∀ l ∈ (fun code =>
      ((sortByAreaDesc ((alookup sm code).getD [])).map
        (fun p => OutLine.row code (tzIdToEnum p.1))) ++
        (if ((alookup sm code).getD []).length = 0 then [OutLine.comment code] else [])) c,
      l.key = c := by
    intro c l hl
    rcases List.mem_append.mp hl with hl | hl
    · obtain ⟨p, _, rfl⟩ := List.mem_map.mp hl
      rfl
    · by_cases hc : ((alookup sm c).getD []).length = 0
      · rw [if_pos hc] at hl
        rcases List.mem_cons.mp hl with rfl | hl
        · rfl
        · cases hl
      · rw [if_neg hc] at hl
        cases hl
  have hlines : subdivisionLines sm =
      ((akeys sm).insertionSort (· ≤ ·)).flatMap (fun code =>
        ((sortByAreaDesc ((alookup sm code).getD [])).map
          (fun p => OutLine.row code (tzIdToEnum p.1))) ++
          (if ((alookup sm code).getD []).length = 0 then [OutLine.comment code]
           else [])) := rfl
  have hfiltergrp := flatMap_group_filter _ hg ((akeys sm).insertionSort (· ≤ ·)) hKnd
  have hentry : ∀ code e, alookup sm code = some e →
      e = applySds E cfg tzLayer (subdivLayer.filter (fun sd => sd.code == code)) [] := by
    intro code e he
    have hmem : code ∈ akeys sm := by
      rw [← alookup_isSome_iff, he]
      rfl
    obtain ⟨sd₀, hsd₀mem, hsd₀code, hsd₀multi⟩ := (hkeys' code).mp hmem
    have hfcong : subdivLayer.filter (fun sd => (sd.code == code) &&
        decide (1 < ((alookup (buildCountryToTz E cfg countryLayer tzLayer)
          (sd.code.take 2)).getD []).length)) =
        subdivLayer.filter (fun sd => sd.code == code) := by
      have hsd₀multi' : 1 < ((alookup (buildCountryToTz E cfg countryLayer tzLayer)
          (code.take 2)).getD []).length := by
        rw [← hsd₀code]
        exact hsd₀multi
      apply List.filter_congr
      intro sd _
      by_cases hc : sd.code = code
      · simp [hc, hsd₀multi']
      · simp [hc]
    have := hgetD code
    rw [he] at this
    simp only [Option.getD_some] at this
    rw [this, hfcong]
    simp [alookup]
  refine ⟨hkeys', ?_, ?_, ?_, ?_⟩
  · intro code e he
    have hE := hentry code e he
    constructor
    · intro tzId
      rw [hE, applySds_keys]
      simp only [akeys, List.map_nil, List.not_mem_nil, false_or]
      constructor
      · rintro ⟨sd, hsd, tz, htz, hmatch, rfl⟩
        have := List.mem_filter.mp hsd
        exact ⟨sd, this.1, by simpa using this.2, tz, htz, hmatch, rfl⟩
      · rintro ⟨sd, hsd, hcode, tz, htz, hmatch, rfl⟩
        exact ⟨sd, List.mem_filter.mpr ⟨hsd, by simp [hcode]⟩, tz, htz, hmatch, rfl⟩
    · intro tzId
      rw [hE, applySds_getD]
      simp [alookup]
  · intro code e he
    have hmem : code ∈ akeys sm := by
      rw [← alookup_isSome_iff, he]
      rfl
    have hmemK : code ∈ (akeys sm).insertionSort (· ≤ ·) :=
      (List.perm_insertionSort (· ≤ ·) _).mem_iff.mpr hmem
    refine ⟨?_, List.perm_insertionSort _ e, ?_⟩
    · rw [hlines, hfiltergrp code, if_pos hmemK, he]
      simp
    · haveI : IsTotal (String × ℚ) (fun a b => b.2 ≤ a.2) := ⟨fun a b => le_total b.2 a.2⟩
      haveI : IsTrans (String × ℚ) (fun a b => b.2 ≤ a.2) :=
        ⟨fun _ _ _ hab hbc => le_trans hbc hab⟩
      have hs := List.sorted_insertionSort (fun a b : String × ℚ => b.2 ≤ a.2) e
      exact List.Pairwise.map (fun p : String × ℚ => p.2) (fun a b h => h) hs
  · rw [hlines]
    exact flatMap_group_sorted _ hg _ (List.sorted_insertionSort (· ≤ ·) _)
  · intro code hcode l hl hlk
    have hmemK : code ∉ (akeys sm).insertionSort (· ≤ ·) := fun h =>
      hcode ((List.perm_insertionSort (· ≤ ·) _).mem_iff.mp h)
    have : l ∈ (subdivisionLines sm).filter (fun l => l.key == code) :=
      List.mem_filter.mpr ⟨hl, by simp [hlk]⟩
    rw [hlines, hfiltergrp code, if_neg hmemK] at this
    cases this

/-- C7: a subdivision code present in the subdivision dict (i.e. of a
multi-timezone country) whose features have no qualifying timezone yields
exactly one comment-only placeholder line and no data row, while a code with
at least one qualifying timezone yields no placeholder. -/
theorem subdivision_placeholder {Geo : Type} (E : GeoEngine Geo) (cfg : Config)
    (countryLayer subdivLayer : List (RegionFeature Geo)) (tzLayer : List (TzFeature Geo))
    (sm : List (String × List (String × ℚ)))
    (hm : buildSubdivToTz E cfg (buildCountryToTz E cfg countryLayer tzLayer)
        subdivLayer tzLayer = some sm)
    (code : String) (hcode : code ∈ akeys sm) :
    ((∀ sd ∈ subdivLayer, sd.code = code →
        ∀ tz ∈ tzLayer, tzRegionMatch E tz.geom sd.geom = false) →
      (subdivisionLines sm).filter (fun l => l.key == code) = [OutLine.comment code]) ∧
    ((∃ sd ∈ subdivLayer, sd.code = code ∧
        ∃ tz ∈ tzLayer, tzRegionMatch E tz.geom sd.geom = true) →
      OutLine.comment code ∉ subdivisionLines sm) := by
  have hgo : buildSubdivToTzGo E cfg (buildCountryToTz E cfg countryLayer tzLayer)
      tzLayer subdivLayer [] = some sm := hm
  have hkeys := buildSubdivToTzGo_keys E cfg (buildCountryToTz E cfg countryLayer tzLayer)
    tzLayer subdivLayer [] sm hgo
  have hgetD := buildSubdivToTzGo_getD E cfg (buildCountryToTz E cfg countryLayer tzLayer)
    tzLayer subdivLayer [] sm hgo
  have hnd : (akeys sm).Nodup := buildSubdivToTzGo_keys_nodup E cfg
    (buildCountryToTz E cfg countryLayer tzLayer) tzLayer subdivLayer [] sm hgo
    (by simp [akeys])
  obtain ⟨e, he⟩ : ∃ e, alookup sm code = some e :=
    Option.isSome_iff_exists.mp ((alookup_isSome_iff sm code).mpr hcode)
  obtain ⟨sd₀, hsd₀mem, hsd₀code, hsd₀multi⟩ :
      ∃ sd ∈ subdivLayer, sd.code = code ∧
        1 < ((alookup (buildCountryToTz E cfg countryLayer tzLayer)
          (sd.code.take 2)).getD []).length := by
    have := (hkeys code).mp hcode
    simpa [akeys] using this
  have hsd₀multi' : 1 < ((alookup (buildCountryToTz E cfg countryLayer tzLayer)
      (code.take 2)).getD []).length := by
    rw [← hsd₀code]
    exact hsd₀multi
  have hfcong : subdivLayer.filter (fun sd => (sd.code == code) &&
      decide (1 < ((alookup (buildCountryToTz E cfg countryLayer tzLayer)
        (sd.code.take 2)).getD []).length)) =
      subdivLayer.filter (fun sd => sd.code == code) := by
    apply List.filter_congr
    intro sd _
    by_cases hc : sd.code = code
    · simp [hc, hsd₀multi']
    · simp [hc]
  have hE : e = applySds E cfg tzLayer
      (subdivLayer.filter (fun sd => sd.code == code)) [] := by
    have := hgetD code
    rw [he] at this
    simp only [Option.getD_some] at this
    rw [this, hfcong]
    simp [alookup]
  have hKnd : ((akeys sm).insertionSort (· ≤ ·)).Nodup :=
    (List.perm_insertionSort (· ≤ ·) _).nodup_iff.mpr hnd
  have hg : ∀ c, ∀ l ∈ (fun code =>
      ((sortByAreaDesc ((alookup sm code).getD [])).map
        (fun p => OutLine.row code (tzIdToEnum p.1))) ++
        (if ((alookup sm code).getD []).length = 0 then [OutLine.comment code] else [])) c,
      l.key = c := by
    intro c l hl
    rcases List.mem_append.mp hl with hl | hl
    · obtain ⟨p, _, rfl⟩ := List.mem_map.mp hl
      rfl
    · by_cases hc : ((alookup sm c).getD []).length = 0
      · rw [if_pos hc] at hl
        rcases List.mem_cons.mp hl with rfl | hl
        · rfl
        · cases hl
      · rw [if_neg hc] at hl
        cases hl
  have hlines : subdivisionLines sm =
      ((akeys sm).insertionSort (· ≤ ·)).flatMap (fun code =>
        ((sortByAreaDesc ((alookup sm code).getD [])).map
          (fun p => OutLine.row code (tzIdToEnum p.1))) ++
          (if ((alookup sm code).getD []).length = 0 then [OutLine.comment code]
           else [])) := rfl
  have hfiltergrp := flatMap_group_filter _ hg ((akeys sm).insertionSort (· ≤ ·)) hKnd
  have hmemK : code ∈ (akeys sm).insertionSort (· ≤ ·) :=
    (List.perm_insertionSort (· ≤ ·) _).mem_iff.mpr hcode
  constructor
  · intro hzero
    have he0 : e = [] := by
      cases hee : e with
      | nil => rfl
      | cons p rest =>
        exfalso
        have hp : p.1 ∈ akeys e := by
          rw [hee]
          simp [akeys]
        rw [hE, applySds_keys] at hp
        rcases hp with hp | ⟨sd, hsd, tz, htz, hmatch, -⟩
        · simp [akeys] at hp
        · have hsdm := List.mem_filter.mp hsd
          have : tzRegionMatch E tz.geom sd.geom = false :=
            hzero sd hsdm.1 (by simpa using hsdm.2) tz htz
          rw [hmatch] at this
          cases this
    rw [hlines, hfiltergrp code, if_pos hmemK, he, he0]
    simp [sortByAreaDesc, List.insertionSort]
  · rintro ⟨sd, hsd, hsdcode, tz, htz, hmatch⟩ hcomm
    have hmemfilter : OutLine.comment code ∈
        (subdivisionLines sm).filter (fun l => l.key == code) :=
      List.mem_filter.mpr ⟨hcomm, by simp⟩
    rw [hlines, hfiltergrp code, if_pos hmemK, he] at hmemfilter
    simp only [Option.getD_some] at hmemfilter
    have hkeymem : normalizedTz cfg tz.tzid ∈ akeys e := by
      rw [hE, applySds_keys]
      exact Or.inr ⟨sd, List.mem_filter.mpr ⟨hsd, by simp [hsdcode]⟩, tz, htz, hmatch, rfl⟩
    have hlen : ¬ e.length = 0 := by
      intro h0
      rw [List.length_eq_zero.mp h0] at hkeymem
      simp [akeys] at hkeymem
    rw [if_neg hlen, List.append_nil] at hmemfilter
    obtain ⟨p, -, hp⟩ := List.mem_map.mp hmemfilter
    cases hp

/-- Shared concrete evaluation: country `"AA"` overlaps both timezones `"P"`
and `"Q"` (so it is a multi-timezone country), and subdivision `"AA-X"`
overlaps both with intersection area 1 each. -/
theorem smC6_eval :
    buildSubdivToTz allE emptyConfig
        (buildCountryToTz allE emptyConfig countryLayerC6 tzLayerC6)
        subdivLayerC6 tzLayerC6 =
      some [("AA-X", [("P", (1 : ℚ)), ("Q", (1 : ℚ))])] := by
  have hctz : buildCountryToTz allE emptyConfig countryLayerC6 tzLayerC6 =
      [("AA", ["P", "Q"])] := by
    norm_num [buildCountryToTz, countryLayerC6, tzLayerC6, addTzMatches,
      allE_tzRegionMatch, normalizedTz, emptyConfig, linsert, aupdate, alookup]
    decide
  rw [buildSubdivToTz, hctz]
  have hsub : subdivTzAreas allE emptyConfig tzLayerC6 3 [] =
      [("P", (1 : ℚ)), ("Q", (1 : ℚ))] := by
    norm_num [subdivTzAreas, tzLayerC6, allE_tzRegionMatch, allE_interArea, normalizedTz,
      emptyConfig, aupdate, alookup]
    simp only [if_neg (show ¬ ("P" = "Q") from by decide)]
    norm_num
  rw [show buildSubdivToTzGo allE emptyConfig [("AA", ["P", "Q"])] tzLayerC6
      subdivLayerC6 [] =
      some [("AA-X", subdivTzAreas allE emptyConfig tzLayerC6 3 [])] from rfl]
  rw [hsub]

/-- C6 counterexample: at `smC6_eval`'s input the subdivision `"AA-X"` emits
two rows whose accumulated areas are `[1, 1]` — a tie — so the emitted rows
are not ordered by strictly descending accumulated area. -/
theorem subdiv_order_counterexample :
    rowAreas ((buildSubdivToTz allE emptyConfig
        (buildCountryToTz allE emptyConfig countryLayerC6 tzLayerC6)
        subdivLayerC6 tzLayerC6).getD []) "AA-X" = [1, 1] ∧
    ¬ (rowAreas ((buildSubdivToTz allE emptyConfig
        (buildCountryToTz allE emptyConfig countryLayerC6 tzLayerC6)
        subdivLayerC6 tzLayerC6).getD []) "AA-X").Sorted (fun a b : ℚ => b < a) := by
  have hareas : rowAreas ((buildSubdivToTz allE emptyConfig
      (buildCountryToTz allE emptyConfig countryLayerC6 tzLayerC6)
      subdivLayerC6 tzLayerC6).getD []) "AA-X" = [1, 1] := by
    rw [smC6_eval]
    simp only [Option.getD_some, rowAreas]
    rw [show alookup [("AA-X", [("P", (1 : ℚ)), ("Q", (1 : ℚ))])] "AA-X" =
      some [("P", (1 : ℚ)), ("Q", (1 : ℚ))] from by decide]
    simp only [Option.getD_some, sortByAreaDesc, List.insertionSort, List.orderedInsert]
    rw [if_pos (by norm_num)]
    rfl
  refine ⟨hareas, ?_⟩
  rw [hareas]
  intro hs
  have h11 := (List.sorted_cons.mp hs).1 1 (by simp)
  exact absurd h11 (by norm_num)

/-- Witness for C6 at the empty layers (the subdivision loop trivially
completes with the empty dict). -/
theorem subdivision_table_correct_witness :
    ((subdivisionLines []).map OutLine.key).Sorted (· ≤ ·) :=
  (subdivision_table_correct allE emptyConfig [] [] [] [] rfl).2.2.2.1

/-- Witness for C7 at `smC6_eval`'s input: subdivision `"AA-X"` has
qualifying timezones, so no placeholder appears for it. -/
theorem subdivision_placeholder_witness :
    OutLine.comment "AA-X" ∉
      subdivisionLines [("AA-X", [("P", (1 : ℚ)), ("Q", (1 : ℚ))])] :=
  (subdivision_placeholder allE emptyConfig countryLayerC6 subdivLayerC6 tzLayerC6
      [("AA-X", [("P", (1 : ℚ)), ("Q", (1 : ℚ))])] smC6_eval "AA-X" (by decide)).2
    ⟨⟨"AA-X", 3⟩, by decide, rfl, ⟨"P", 1⟩, by decide, by
      rw [allE_tzRegionMatch]⟩

theorem buildCountryToTz_mem {Geo : Type} (E : GeoEngine Geo) (cfg : Config)
    (tzLayer : List (TzFeature Geo)) :
    ∀ (cl : List (RegionFeature Geo)) (m : List (String × List String)) (c x : String),
      x ∈ (alookup (cl.foldl (fun m c =>
          aupdate m c.code (addTzMatches E cfg tzLayer c.geom ((alookup m c.code).getD [])))
          m) c).getD [] →
      x ∈ (alookup m c).getD [] ∨ ∃ tz ∈ tzLayer, x = normalizedTz cfg tz.tzid := by
  intro cl
  induction cl with
  | nil => intro m c x h; exact Or.inl h
  | cons c₀ rest ih =>
    intro m c x h
    rcases ih _ c x h with h' | h'
    · by_cases hc : c₀.code = c
      · rw [show alookup (aupdate m c₀.code
            (addTzMatches E cfg tzLayer c₀.geom ((alookup m c₀.code).getD []))) c =
            some (addTzMatches E cfg tzLayer c₀.geom ((alookup m c₀.code).getD []))
          from by rw [← hc]; exact alookup_aupdate_self _ _ _] at h'
        simp only [Option.getD_some] at h'
        rcases (addTzMatches_mem E cfg tzLayer c₀.geom _ x).mp h' with hx | ⟨tz, htz, _, hx⟩
        · rw [hc] at hx
          exact Or.inl hx
        · exact Or.inr ⟨tz, htz, hx.symm⟩
      · rw [alookup_aupdate_ne _ _ _ _ (fun e => hc e.symm)] at h'
        exact Or.inl h'
    · exact Or.inr h'

/-- C2 (amended: the invariant holds under the side condition that the
normalization map sends every collected raw id to a collected raw id — e.g.
when `TZID_MAP`'s relevant values themselves occur as `tzid` attributes;
without it, tables of task 2 can reference normalized identifiers that are
not enumerators, see the counterexample): every `Tz::` reference emitted in
the three tables equals `tzIdToEnum` of some raw id collected by task 1. -/
theorem refs_in_enum {Geo : Type} (E : GeoEngine Geo) (cfg : Config)
    (countryLayer subdivLayer : List (RegionFeature Geo)) (tzLayer : List (TzFeature Geo))
    (pick : List String → String)
    (hpick : ∀ l : List String, l ≠ [] → pick l ∈ l)
    (sm : List (String × List (String × ℚ)))
    (hm : buildSubdivToTz E cfg (buildCountryToTz E cfg countryLayer tzLayer)
        subdivLayer tzLayer = some sm)
    (hnorm : ∀ t ∈ collectTzIds tzLayer, normalizedTz cfg t ∈ collectTzIds tzLayer) :
    ∀ r ∈ tableTzRefs (countryLines E cfg countryLayer tzLayer pick)
        (subdivisionLines sm) (timezoneCountryLines E cfg tzLayer countryLayer pick),
      ∃ raw ∈ collectTzIds tzLayer, r = tzIdToEnum raw := by
  have horigin : ∀ c x, x ∈ (alookup (buildCountryToTz E cfg countryLayer tzLayer) c).getD
      [] → ∃ raw ∈ collectTzIds tzLayer, x = normalizedTz cfg raw := by
    intro c x hx
    rcases buildCountryToTz_mem E cfg tzLayer countryLayer [] c x hx with h | ⟨tz, htz, rfl⟩
    · simp [alookup] at h
    · exact ⟨tz.tzid, List.mem_map_of_mem _ htz, rfl⟩
  intro r hr
  rw [tableTzRefs, List.mem_append, List.mem_append] at hr
  rcases hr with (hr | hr) | hr
  · -- country table row values
    obtain ⟨l, hl, hlr⟩ := List.mem_filterMap.mp hr
    obtain ⟨c, -, hfc⟩ := List.mem_filterMap.mp hl
    by_cases hlen : ((alookup (buildCountryToTz E cfg countryLayer tzLayer) c).getD
        []).length = 1
    · rw [if_pos hlen] at hfc
      cases hfc
      simp only at hlr
      cases hlr
      have hne : (alookup (buildCountryToTz E cfg countryLayer tzLayer) c).getD [] ≠ [] := by
        intro h0
        rw [h0] at hlen
        cases hlen
      have hpmem := hpick _ hne
      obtain ⟨raw, hraw, hx⟩ := horigin c _ hpmem
      exact ⟨normalizedTz cfg raw, hnorm raw hraw, by rw [hx]⟩
    · rw [if_neg hlen] at hfc
      cases hfc
  · -- subdivision table row values
    obtain ⟨l, hl, hlr⟩ := List.mem_filterMap.mp hr
    obtain ⟨code, -, hg⟩ := List.mem_flatMap.mp hl
    rcases List.mem_append.mp hg with hg | hg
    · obtain ⟨p, hp, rfl⟩ := List.mem_map.mp hg
      simp only at hlr
      cases hlr
      have hpkeys : p.1 ∈ akeys ((alookup sm code).getD []) := by
        have := (List.perm_insertionSort (fun a b : String × ℚ => b.2 ≤ a.2) _).mem_iff.mp hp
        exact List.mem_map_of_mem (·.1) this
      have hgetD := buildSubdivToTzGo_getD E cfg
        (buildCountryToTz E cfg countryLayer tzLayer) tzLayer subdivLayer [] sm hm code
      rw [hgetD] at hpkeys
      rw [applySds_keys] at hpkeys
      rcases hpkeys with h | ⟨sd, -, tz, htz, -, hx⟩
      · simp [akeys, alookup] at h
      · refine ⟨normalizedTz cfg tz.tzid, hnorm tz.tzid (List.mem_map_of_mem _ htz), ?_⟩
        rw [hx]
    · by_cases hc : ((alookup sm code).getD []).length = 0
      · rw [if_pos hc] at hg
        rcases List.mem_cons.mp hg with rfl | hg
        · cases hlr
        · cases hg
      · rw [if_neg hc] at hg
        cases hg
  · -- timezone→country table keys
    obtain ⟨l, hl, rfl⟩ := List.mem_map.mp hr
    obtain ⟨tzId, htzId, hgl⟩ := List.mem_map.mp hl
    have htzraw : tzId ∈ collectTzIds tzLayer := by
      have hmem := (List.perm_insertionSort (· ≤ ·) _).mem_iff.mp htzId
      rw [show (buildTzToCountry E cfg tzLayer countryLayer) =
          tzLayer.foldl (fun m tz =>
            aupdate m tz.tzid (countryMatchSet E cfg countryLayer tz.geom)) []
        from rfl] at hmem
      rw [foldl_aupdate_keys (fun tz : TzFeature Geo => tz.tzid)
        (fun _ tz => countryMatchSet E cfg countryLayer tz.geom)] at hmem
      rcases hmem with h | h
      · simp [akeys] at h
      · exact h
    refine ⟨tzId, htzraw, ?_⟩
    by_cases hlen : (disambiguateCountries cfg
        ((alookup (buildTzToCountry E cfg tzLayer countryLayer) tzId).getD [])).length = 1
    · rw [← hgl]
      simp only [if_pos hlen]
      rfl
    · rw [← hgl]
      simp only [if_neg hlen]
      rfl

/-- On the configuration with empty maps, the single raw id `"X"` of
`tzLayerC2` overlapping `countryLayerC2` is emitted as a reference in the
country→timezone table (and in the timezone→country table). -/
theorem refX_mem :
    "X" ∈ tableTzRefs (countryLines allE emptyConfig countryLayerC2 tzLayerC2 pickD)
      (subdivisionLines []) (timezoneCountryLines allE emptyConfig tzLayerC2
        countryLayerC2 pickD) := by
  have hb : buildCountryToTz allE emptyConfig countryLayerC2 tzLayerC2 =
      [("AA", ["X"])] := by
    norm_num [buildCountryToTz, countryLayerC2, tzLayerC2, addTzMatches,
      allE_tzRegionMatch, normalizedTz, emptyConfig, linsert, aupdate, alookup]
  have ht : buildTzToCountry allE emptyConfig tzLayerC2 countryLayerC2 =
      [("X", ["AA"])] := by
    norm_num [buildTzToCountry, tzLayerC2, countryLayerC2, countryMatchSet,
      addCountryMatches, allE_countryTzMatch, normalizedCountry, emptyConfig, linsert,
      aupdate, alookup]
    decide
  simp only [tableTzRefs, countryLines, timezoneCountryLines, hb, ht]
  decide

/-- Witness for C2 at a one-timezone, one-country input whose (empty)
normalization map trivially satisfies the side condition. -/
theorem refs_in_enum_witness :
    ∃ raw ∈ collectTzIds tzLayerC2, "X" = tzIdToEnum raw :=
  refs_in_enum allE emptyConfig countryLayerC2 [] tzLayerC2 pickD pickD_valid [] rfl
    (by decide) "X" refX_mem
